import Mathlib

/-!
Verification development for the cold-storage archive pipeline
(`coldstore`): a shallow embedding, in Lean, of the parts of the code that
the specification claims talk about, together with theorems settling those
claims.

Conventions of the embedding:
* Python strings are Lean `String`s; all operations on them are defined on
  `String.data` (the list of characters), mirroring Python's code-point
  semantics, so that everything evaluates by `decide`.
* Byte files are `List Nat` (each element < 256 where it matters).
* Filesystem state that a function inspects is passed explicitly as a
  record or as function arguments.
* Functions keep the names of the source functions they embed
  (`coldstore/core/compress.py`, `hash.py`, `handlers.py`, `archive.py`,
  `format_detector.py`, `par2.py`, `commands/pack.py`,
  `commands/verify.py`).
-/

namespace ColdStore

/-! ## Character-list string primitives (model of Python `str` operations) -/

/-- Lexicographic comparison of character lists by code point:
the model of Python's `<=` on strings (used by `sorted`). -/
def charListLe : List Char → List Char → Bool
  | [], _ => true
  | _ :: _, [] => false
  | a :: as, b :: bs =>
    if a < b then true
    else if b < a then false
    else charListLe as bs

/-- Python `s1 <= s2` for strings. -/
def strLe (a b : String) : Bool := charListLe a.data b.data

/-- Does `sub` occur contiguously inside `l`?  Model of Python's
`sub in s` substring test. -/
def hasInfixCl (sub : List Char) : List Char → Bool
  | [] => sub.isEmpty
  | c :: cs => sub.isPrefixOf (c :: cs) || hasInfixCl sub cs

/-- Python `sub in s` on strings. -/
def strContains (s sub : String) : Bool := hasInfixCl sub.data s.data

/-- Python `s.startswith(p)`. -/
def strStartsWith (s p : String) : Bool := p.data.isPrefixOf s.data

/-- Python `s.endswith(p)`. -/
def strEndsWith (s p : String) : Bool := List.isSuffixOf p.data s.data

/-- ASCII lower-casing of a character (model of `str.lower` per character). -/
def charLower (c : Char) : Char :=
  if 'A' ≤ c ∧ c ≤ 'Z' then Char.ofNat (c.toNat + 32) else c

/-- Python `s.lower()` (ASCII; the pipeline only compares ASCII names). -/
def strLower (s : String) : String := ⟨s.data.map charLower⟩

/-- Split a character list at `'/'` separators; model of Python
`s.split("/")` (and of the component list of a POSIX relative path). -/
def splitSlashCl : List Char → List (List Char)
  | [] => [[]]
  | c :: cs =>
    if c = '/' then [] :: splitSlashCl cs
    else
      match splitSlashCl cs with
      | r :: rs => (c :: r) :: rs
      | [] => [[c]]

/-- Python `s.split("/")` on strings. -/
def pathParts (s : String) : List String := (splitSlashCl s.data).map String.mk

/-! ## `CompressionEngine._calculate_optimal_window_log`
    (`coldstore/core/compress.py`) -/

/-- `CompressionEngine._calculate_optimal_window_log`.  The platform
predicates `sys.maxsize > 2**32` and `platform.system() == "Windows"` are
passed in as the booleans `is64bit` and `isWindows`. -/
def _calculate_optimal_window_log (is64bit isWindows : Bool) (file_size : Nat) : Nat :=
  let max_window_log :=
    if is64bit then (if isWindows then 30 else 31)
    else (if isWindows then 29 else 30)
  if file_size < 2 * 1024 * 1024 then 20
  else if file_size < 20 * 1024 * 1024 then 24
  else if file_size < 200 * 1024 * 1024 then 27
  else max_window_log

/-! ## zstd frame model
The pipeline delegates compression to the zstd codec.  The frame layout
below (magic number, frame-header descriptor, window descriptor,
dictionary id, frame content size) is modelled from RFC 8878, which is the
contract `zstandard.get_frame_parameters` implements. -/

/-- Little-endian value of a byte list. -/
def leVal : List Nat → Nat
  | [] => 0
  | b :: bs => b + 256 * leVal bs

/-- Result type of `zstandard.get_frame_parameters`. -/
structure FrameParameters where
  window_size : Nat
  has_checksum : Bool
deriving DecidableEq, Repr

/-- Model of `zstandard.get_frame_parameters` applied to the first bytes of
a file: `none` models the `ZstdError` raised on data that is not a valid
frame header, `some` carries the parsed parameters.  A skippable frame
(magic `0x184D2A5x`) parses with `window_size = 0`. -/
def zstd_get_frame_parameters (header : List Nat) : Option FrameParameters :=
  match header with
  | b0 :: b1 :: b2 :: b3 :: rest =>
    if b0 = 0x28 ∧ b1 = 0xB5 ∧ b2 = 0x2F ∧ b3 = 0xFD then
      match rest with
      | fhd :: rest2 =>
        let fcsFlag := fhd / 64
        let singleSegment := fhd / 32 % 2 = 1
        let checksum := fhd / 4 % 2 = 1
        let dictLen := if fhd % 4 = 0 then 0 else if fhd % 4 = 1 then 1
          else if fhd % 4 = 2 then 2 else 4
        let fcsLen := if fcsFlag = 0 then (if singleSegment then 1 else 0)
          else if fcsFlag = 1 then 2 else if fcsFlag = 2 then 4 else 8
        if singleSegment then
          -- no window descriptor: the window is the frame content size
          let body := rest2.drop dictLen
          if fcsLen ≤ body.length then
            let fcs := leVal (body.take fcsLen) + (if fcsFlag = 1 then 256 else 0)
            some { window_size := fcs, has_checksum := checksum }
          else none
        else
          match rest2 with
          | wd :: rest3 =>
            if fcsLen ≤ (rest3.drop dictLen).length ∨ fcsLen = 0 then
              let exponent := wd / 8
              let mantissa := wd % 8
              let windowBase := 2 ^ (10 + exponent)
              some { window_size := windowBase + windowBase / 8 * mantissa,
                     has_checksum := checksum }
            else none
          | [] => none
      | [] => none
    else if (0x50 ≤ b0 ∧ b0 ≤ 0x5F) ∧ b1 = 0x2A ∧ b2 = 0x4D ∧ b3 = 0x18 then
      some { window_size := 0, has_checksum := false }
    else none
  | _ => none

/-- `CompressionEngine.verify_zstd_integrity`: open the file, read the
first 18 bytes, and succeed iff `get_frame_parameters` does not raise. -/
def verify_zstd_integrity (file : List Nat) : Bool :=
  (zstd_get_frame_parameters (file.take 18)).isSome

/-- `CompressionEngine.get_zstd_window_log`: parse the first 18 bytes; on
any failure (`except` branch) or when `frame_params.window_size` is falsy,
return the default 23; otherwise `int(math.log2(window_size))`. -/
def get_zstd_window_log (file : List Nat) : Nat :=
  match zstd_get_frame_parameters (file.take 18) with
  | none => 23
  | some fp => if fp.window_size ≠ 0 then Nat.log 2 fp.window_size else 23

/-- The window-log value `CompressionEngine.decompress_with_zstd` computes
before streaming: the code reads it back from the compressed file's frame
header (`window_log = self.get_zstd_window_log(zst_path)`); nothing in the
function recomputes it from the file's size. -/
def decompress_window_log_used (file : List Nat) : Nat :=
  get_zstd_window_log file

/-- Frame header written by the codec when an explicit `window_log` is
forced through `ZstdCompressionParameters` (window a power of two, so the
window descriptor has exponent `wlog - 10` and mantissa 0); `write_checksum`
sets the content-checksum bit of the descriptor. -/
def zstdFrameHeader (wlog : Nat) : List Nat :=
  [0x28, 0xB5, 0x2F, 0xFD, 4, (wlog - 10) * 8]

/-- Modelled from the zstd library: the default window log the codec picks
for this pipeline's compression levels when no explicit `window_log` is
forced and the content size is unknown (streaming).  Its exact value is
irrelevant below; what matters is that it is a fixed level-dependent value,
not the size-adaptive table value (for level 19, zstd's default table uses
window log 23). -/
def zstdDefaultWindowLog (_level : Nat) : Nat := 23

/-- `CompressionEngine.compress_with_zstd`: compute the table window log
from the input size; when `long_mode and level >= 10`, force it through
`ZstdCompressionParameters` (long-mode branch); otherwise construct a
plain `ZstdCompressor(level=..)` without a window log.  The payload after
the frame header abstracts the compressed blocks (their encoding is
irrelevant to every claim below). -/
def compress_with_zstd (is64bit isWindows : Bool) (tarBytes : List Nat)
    (level : Nat) (long_mode : Bool) : List Nat :=
  let file_size := tarBytes.length
  let window_log := _calculate_optimal_window_log is64bit isWindows file_size
  if long_mode ∧ 10 ≤ level then
    zstdFrameHeader window_log ++ tarBytes
  else
    zstdFrameHeader (zstdDefaultWindowLog level) ++ tarBytes

/-! ## `HashGenerator` sidecar verification (`coldstore/core/hash.py`)
    and `verify_single_archive` (`coldstore/commands/verify.py`) -/

/-- The filesystem facts `verify_single_archive` consults for one archive:
whether each sidecar file exists next to it, the expected-hash token parsed
from each sidecar's first line, the digests of the archive's current bytes,
and the outcomes of the zstd-header and decompression/tar checks. -/
structure ArchiveFS where
  sha256SidecarExists : Bool
  sha256Expected : String
  blake3SidecarExists : Bool
  blake3Expected : String
  sha256Live : String
  blake3Live : String
  zstdOk : Bool
  tarOk : Bool
deriving DecidableEq, Repr

/-- Core of `HashGenerator.verify_hash_file` once the sidecar's expected
token has been parsed: an empty token is an invalid file (`False`),
otherwise compare the freshly computed digest case-insensitively. -/
def verify_hash_file (expected actual : String) : Bool :=
  if expected = "" then false
  else strLower actual = strLower expected

/-- `HashGenerator.verify_all_hashes`: for each of `.sha256` and `.blake3`,
verify when the sidecar exists, and return `False` (with a warning log)
when it does not. -/
def verify_all_hashes (fs : ArchiveFS) : Bool × Bool :=
  ( if fs.sha256SidecarExists then verify_hash_file fs.sha256Expected fs.sha256Live
    else false,
    if fs.blake3SidecarExists then verify_hash_file fs.blake3Expected fs.blake3Live
    else false )

/-- The per-archive result dictionary of
`verify.verify_single_archive`: `none` models Python `None`. -/
structure VerifyResults where
  zstd_integrity : Bool
  sha256_hash : Option Bool
  blake3_hash : Option Bool
  tar_integrity : Bool
deriving DecidableEq, Repr

/-- `verify.verify_single_archive`: the hash fields are initialised to
`None` but are always overwritten with `hash_results.get(..)`, which
`verify_all_hashes` populates with a boolean for both algorithms. -/
def verify_single_archive (fs : ArchiveFS) : VerifyResults :=
  { zstd_integrity := fs.zstdOk,
    sha256_hash := some (verify_all_hashes fs).1,
    blake3_hash := some (verify_all_hashes fs).2,
    tar_integrity := fs.tarOk }

/-- `result.values()` of the per-archive dictionary, in insertion order. -/
def resultValues (r : VerifyResults) : List (Option Bool) :=
  [some r.zstd_integrity, r.sha256_hash, r.blake3_hash, some r.tar_integrity]

/-- `verify.main`'s per-archive failure test:
`has_failures = any(r is False for r in result.values())`. -/
def archiveHasFailures (r : VerifyResults) : Bool :=
  (resultValues r).any (fun v => v = some false)

/-- `verify.main`'s exit behaviour: exit status 1 iff any archive had a
failing check, 0 otherwise. -/
def verifyExitCode (rs : List VerifyResults) : Nat :=
  if rs.any archiveHasFailures then 1 else 0

/-! ## `pack.main` control flow (`coldstore/commands/pack.py`) and the
    PAR2 engine's tool lookup (`coldstore/core/par2.py`) -/

/-- Environment facts `pack.main` encounters, in the order it consults
them.  `par2ToolPresent` models `shutil.which("par2") is not None`. -/
structure PackEnv where
  sysCheckOk : Bool
  outputsExist : Bool
  compressOk : Bool
  hashOk : Bool
  par2ToolPresent : Bool
  par2RunOk : Bool
  noCheck : Bool
  noPar2 : Bool
deriving DecidableEq, Repr

/-- Outcome of one `pack` invocation: `exited code cleanedPartial` models
`typer.Exit(code)` (with whether `organizer.cleanup_partial_files()` was
called first); `completed par2Generated par2Error` models falling through
to the summary, which exits with status 0. -/
inductive PackOutcome where
  | exited (code : Nat) (cleanedPartial : Bool)
  | completed (par2Generated : Bool) (par2Error : Option String)
deriving DecidableEq, Repr

/-- `PAR2Engine._find_par2_command`: raise `PAR2ToolNotFoundError` when
`shutil.which("par2")` finds nothing, otherwise return the path. -/
def _find_par2_command (toolPresent : Bool) : Except String String :=
  if toolPresent then Except.ok "par2"
  else Except.error
    "par2 command not found in PATH. Please ensure par2cmdline-turbo is installed"

/-- `PAR2Engine` construction followed by `generate_par2`, as `pack.main`
step 6 runs them: the constructor's `_find_par2_command` may raise, and the
generation run itself may fail. -/
def par2_generate (toolPresent runOk : Bool) : Except String (List String) :=
  match _find_par2_command toolPresent with
  | Except.error e => Except.error e
  | Except.ok _ =>
    if runOk then Except.ok ["archive.tar.zst.par2"]
    else Except.error "PAR2 generation failed"

/-- `pack.main`: system check, existing-output check, compression (failure
cleans partial output and exits 1), hash generation (likewise), then PAR2
generation wrapped in `try/except Exception`: any PAR2 error — including a
missing tool — is caught, recorded in `par2_error`, logged, and the command
continues to the summary and exits 0. -/
def pack_main (env : PackEnv) : PackOutcome :=
  if ¬env.sysCheckOk then PackOutcome.exited 1 false
  else if env.outputsExist then PackOutcome.exited 1 false
  else if ¬env.compressOk then PackOutcome.exited 1 true
  else if ¬env.noCheck ∧ ¬env.hashOk then PackOutcome.exited 1 true
  else if ¬env.noPar2 then
    match par2_generate env.par2ToolPresent env.par2RunOk with
    | Except.ok _ => PackOutcome.completed true none
    | Except.error e => PackOutcome.completed false (some e)
  else PackOutcome.completed false none

/-! ## `ArchiveAnalyzer._analyze_structure` (`coldstore/core/archive.py`) -/

/-- Decimal digit character. -/
def digitChar (n : Nat) : Char := Char.ofNat (48 + n % 10)

/-- Decimal digits of `n`, most significant first (fuel-driven; `n + 1`
fuel always suffices since `n / 10 < n` for `n ≥ 10`). -/
def natDigits : Nat → Nat → List Char
  | 0, _ => []
  | fuel + 1, n => if n < 10 then [digitChar n] else natDigits fuel (n / 10) ++ [digitChar (n % 10)]

/-- Model of Python's `str(n)` for a natural number (as used by f-strings). -/
def natToStr (n : Nat) : String := ⟨natDigits (n + 1) n⟩

/-- One element of the `entry_dicts` list `_analyze_structure` builds. -/
structure SEntry where
  path : String
  size : Nat
  is_dir : Bool
deriving DecidableEq, Repr

/-- The `type` field of the structure dictionary. -/
inductive SKind where
  | empty | single_root | multiple_roots | single_file | unknownKind
deriving DecidableEq, Repr

/-- The structure dictionary `_analyze_structure` returns (the `entries`
and `format` fields are pass-throughs and omitted). -/
structure StructureInfo where
  type : SKind
  description : String
  has_single_root : Bool
  root_folder : Option String
deriving DecidableEq, Repr

/-- The code's top-level test: `path_parts = entry["path"].split("/")`,
then `len(path_parts) == 1 or (len(path_parts) == 2 and path_parts[1] == "")`. -/
def isTopLevel (e : SEntry) : Bool :=
  match pathParts e.path with
  | [_] => true
  | [_, t] => t = ""
  | _ => false

/-- `ArchiveAnalyzer._analyze_structure` (the `entries`/`format`
pass-through fields omitted).  Branch order as in the source: empty list,
single top-level directory, more than one top-level entry, one top-level
non-directory, fallback `unknown`. -/
def _analyze_structure (entries : List SEntry) : StructureInfo :=
  match entries with
  | [] => { type := SKind.empty, description := "Empty archive",
            has_single_root := false, root_folder := none }
  | _ =>
    let top_level_entries := entries.filter isTopLevel
    match top_level_entries with
    | [e] =>
      if e.is_dir then
        { type := SKind.single_root,
          description := "Single root folder: " ++ e.path,
          has_single_root := true, root_folder := some e.path }
      else
        { type := SKind.single_file,
          description := "Single file: " ++ e.path,
          has_single_root := false, root_folder := none }
    | _ :: _ :: _ =>
      let dirs := (top_level_entries.filter (fun e => e.is_dir)).length
      let files := top_level_entries.length - dirs
      { type := SKind.multiple_roots,
        description := "Multiple top-level entries: " ++ natToStr dirs
          ++ " dirs, " ++ natToStr files ++ " files",
        has_single_root := false, root_folder := none }
    | [] =>
      { type := SKind.unknownKind, description := "Unknown structure",
        has_single_root := false, root_folder := none }

/-- The top-level test on the underlying character list. -/
def topLevelCl (l : List Char) : Bool :=
  match splitSlashCl l with
  | [_] => true
  | [_, t] => t.isEmpty
  | _ => false

/-- The claim's own partition criterion, verbatim: an entry is top-level
when its path has zero or one separator.  (Stated only to compare with the
code's `isTopLevel`.) -/
def claimTopLevel (e : SEntry) : Bool :=
  e.path.data.count '/' ≤ 1

/-! ## `FormatDetector` (`coldstore/core/format_detector.py`) -/

/-- `ArchiveFormat` enumeration. -/
inductive ArchiveFormat where
  | seven_zip | zip | rar | tar | tar_gz | tar_bz2 | tar_xz | gz | bz2 | xz | unknown
deriving DecidableEq, Repr

/-- `self.extension_mapping`, in source (dict insertion) order. -/
def extMapping : List (String × ArchiveFormat) :=
  [ (".7z", ArchiveFormat.seven_zip), (".zip", ArchiveFormat.zip),
    (".rar", ArchiveFormat.rar), (".tar", ArchiveFormat.tar),
    (".tar.gz", ArchiveFormat.tar_gz), (".tgz", ArchiveFormat.tar_gz),
    (".tar.bz2", ArchiveFormat.tar_bz2), (".tbz2", ArchiveFormat.tar_bz2),
    (".tar.xz", ArchiveFormat.tar_xz), (".txz", ArchiveFormat.tar_xz),
    (".gz", ArchiveFormat.gz), (".bz2", ArchiveFormat.bz2),
    (".xz", ArchiveFormat.xz) ]

/-- The comparison `sorted(.., key=lambda x: -len(x[0]))` establishes:
longer extension first. -/
def extLenGe (a b : String × ArchiveFormat) : Prop := b.1.length ≤ a.1.length

instance : DecidableRel extLenGe := fun a b => Nat.decLe b.1.length a.1.length

instance : IsTotal (String × ArchiveFormat) extLenGe :=
  ⟨fun a b => (Nat.le_total b.1.length a.1.length).imp id id⟩

instance : IsTrans (String × ArchiveFormat) extLenGe :=
  ⟨fun _ _ _ h1 h2 => Nat.le_trans h2 h1⟩

/-- `FormatDetector._detect_by_extension`: lower-case the file name, then
return the format of the first extension in the length-descending sorted
mapping that is a suffix of it (`unknown` if none matches). -/
def _detect_by_ext (fileName : String) : ArchiveFormat :=
  (((List.insertionSort extLenGe extMapping).find?
      (fun em => strEndsWith (strLower fileName) em.1)).map Prod.snd).getD
    ArchiveFormat.unknown

/-- `self.magic_bytes`, in source (dict insertion) order, as byte lists. -/
def magicBytes : List (ArchiveFormat × List (List Nat)) :=
  [ (ArchiveFormat.seven_zip, [[0x37, 0x7A, 0xBC, 0xAF, 0x27, 0x1C]]),
    (ArchiveFormat.zip, [[0x50, 0x4B, 0x03, 0x04], [0x50, 0x4B, 0x05, 0x06],
                         [0x50, 0x4B, 0x07, 0x08]]),
    (ArchiveFormat.rar, [[0x52, 0x61, 0x72, 0x21, 0x1A, 0x07, 0x00],
                         [0x52, 0x61, 0x72, 0x21, 0x1A, 0x07, 0x01, 0x00]]),
    (ArchiveFormat.tar, [[0x75, 0x73, 0x74, 0x61, 0x72, 0x00],
                         [0x75, 0x73, 0x74, 0x61, 0x72, 0x20, 0x20, 0x00]]),
    (ArchiveFormat.gz, [[0x1F, 0x8B]]),
    (ArchiveFormat.bz2, [[0x42, 0x5A]]),
    (ArchiveFormat.xz, [[0xFD, 0x37, 0x7A, 0x58, 0x5A, 0x00]]) ]

/-- `bytes.startswith(magic)`. -/
def bytesStartWith (l sig : List Nat) : Bool := sig.isPrefixOf l

/-- `FormatDetector._detect_by_magic_bytes`: `none` content models an
unreadable file (`OSError` caught, yielding `unknown`); otherwise probe the
first 32 bytes against the signature table, then the `ustar` signature at
offset 257. -/
def _detect_by_magic_bytes (content : Option (List Nat)) : ArchiveFormat :=
  match content with
  | none => ArchiveFormat.unknown
  | some bytes =>
    let header := bytes.take 32
    match magicBytes.find? (fun fm => fm.2.any (fun m => bytesStartWith header m)) with
    | some fm => fm.1
    | none =>
      if 32 ≤ header.length then
        if bytesStartWith ((bytes.drop 257).take 8) [0x75, 0x73, 0x74, 0x61, 0x72]
        then ArchiveFormat.tar
        else ArchiveFormat.unknown
      else ArchiveFormat.unknown

/-- What `detect_format` can observe about a path: existence, regular-file
status, the file name, and the readable bytes (`none` = unreadable). -/
structure FileModel where
  present : Bool
  isFile : Bool
  fileName : String
  content : Option (List Nat)
deriving DecidableEq, Repr

/-- `FormatDetector.detect_format`: nonexistent or non-regular paths are
`unknown`; otherwise extension and magic-byte detection are combined with
the extension taking precedence on disagreement. -/
def detect_format (f : FileModel) : ArchiveFormat :=
  if ¬f.present ∨ ¬f.isFile then ArchiveFormat.unknown
  else
    let format_by_ext := _detect_by_ext f.fileName
    let format_by_magic := _detect_by_magic_bytes f.content
    if format_by_ext = format_by_magic then format_by_ext
    else if format_by_ext ≠ ArchiveFormat.unknown then format_by_ext
    else if format_by_magic ≠ ArchiveFormat.unknown then format_by_magic
    else ArchiveFormat.unknown

/-- An existing regular file whose bytes cannot be read (the `OSError`
branch), bearing a well-known extension. -/
def unreadableZip : FileModel :=
  { present := true, isFile := true, fileName := "data.zip", content := none }

/-! ## Archive extraction and the path-traversal guard
    (`coldstore/core/handlers.py`, `coldstore/core/compress.py`) -/

/-- An archive member as the extraction loops see it (only the
archive-internal path matters to the claims). -/
structure TarMember where
  name : String
deriving DecidableEq, Repr

/-- The danger test of `CompressionEngine.extract_tar_archive`:
`member.name.startswith("/") or ".." in member.name` (a substring test,
not a path-segment test). -/
def dangerousMember (m : TarMember) : Bool :=
  strStartsWith m.name "/" || strContains m.name ".."

/-- `CompressionEngine.extract_tar_archive` on the member list: one warning
per dangerous member, and `tar.extractall(path=output_dir,
members=safe_members)` on the filtered rest.  Returns (extracted members,
warnings). -/
def extract_tar_archive (members : List TarMember) : List TarMember × List String :=
  ( members.filter (fun m => ¬dangerousMember m),
    (members.filter (fun m => dangerousMember m)).map
      (fun m => "Skipping potentially dangerous path: " ++ m.name) )

/-- Where the filesystem materializes an entry extracted into `dest`:
join `dest` with the entry's path components and resolve `..`/`.`/empty
components the way the OS does at `open` time. -/
def resolveComps : List String → List String → List String
  | acc, [] => acc
  | acc, c :: cs =>
    if c = ".." then resolveComps acc.dropLast cs
    else if c = "." ∨ c = "" then resolveComps acc cs
    else resolveComps (acc ++ [c]) cs

/-- Resolved location of `entryName` under destination `dest`. -/
def resolveUnder (dest : List String) (entryName : String) : List String :=
  resolveComps dest (pathParts entryName)

/-- Does extracting `entryName` under `dest` write outside `dest`? -/
def escapesDest (dest : List String) (entryName : String) : Bool :=
  ¬ (dest.isPrefixOf (resolveUnder dest entryName))

/-- The arcname sanitization CPython's `zipfile._extract_member` performs
on a POSIX system before joining the member name under the destination:
split the name on the separator and drop every component that is empty,
`.` or `..` (`invalid_path_parts = ('', os.path.curdir, os.path.pardir)`;
`os.path.splitdrive` is a no-op on POSIX, so an absolute name loses only
its leading empty component). -/
def zipSanitizedParts (name : String) : List String :=
  (pathParts name).filter (fun x => ¬(x = "" ∨ x = "." ∨ x = ".."))

/-- `ZipHandler.extract_all` on a non-Windows platform
(`needs_windows_sanitization()` false): `archive.extractall(path=extract_to)`.
The stdlib routes every member through `_extract_member`, so every entry
is materialized — none is skipped and no warning is emitted — at the
sanitized component path joined under the destination.  Returns (entries
paired with the component path each is written to, warnings). -/
def ZipHandler_extract_all_posix (dest : List String) (entries : List TarMember) :
    List (TarMember × List String) × List String :=
  (entries.map (fun m => (m, dest ++ zipSanitizedParts m.name)), [])

/-- `TarHandler.extract_all` on a non-Windows platform:
`archive.extractall(path=extract_to)` with no `filter` argument — every
member is materialized at its raw name joined under the destination, with
no path check and no warning; `..` components are resolved by the
filesystem.  Returns (members paired with the resolved component path
each is written to, warnings). -/
def TarHandler_extract_all_posix (dest : List String) (members : List TarMember) :
    List (TarMember × List String) × List String :=
  (members.map (fun m => (m, resolveUnder dest m.name)), [])

/-- A member list containing a traversal attempt alongside a benign file. -/
def evilMembers : List TarMember :=
  [{ name := "../evil.txt" }, { name := "ok.txt" }]

/-! ## Deterministic tar serialization (`coldstore/core/compress.py`:
    `_get_sorted_file_list`, `create_deterministic_tar`) -/

/-- Per-node filesystem metadata: everything `tar.gettarinfo` reads from
`stat` that the serializer later overwrites (numeric ids, the owner/group
names the OS derives from them, and the modification time, whose value is
what a different timezone or a later copy would change). -/
structure FileMeta where
  uid : Nat
  gid : Nat
  uname : String
  gname : String
  mtime : Nat
deriving DecidableEq, Repr

/-- A directory tree as the serializer walks it.  The order of `children`
is the order `Path.iterdir()` happens to produce — the filesystem
traversal order, which the claims allow to vary. -/
inductive FSTree where
  | file (nm : String) (content : List Nat) (meta : FileMeta)
  | dir (nm : String) (meta : FileMeta) (children : List FSTree)

/-- `item.name`. -/
def FSTree.nm : FSTree → String
  | FSTree.file n _ _ => n
  | FSTree.dir n _ _ => n

/-- `item.is_dir()`. -/
def FSTree.isDirB : FSTree → Bool
  | FSTree.file _ _ _ => false
  | FSTree.dir _ _ _ => true

/-- Stat metadata of the node. -/
def FSTree.meta : FSTree → FileMeta
  | FSTree.file _ _ m => m
  | FSTree.dir _ m _ => m

/-- The children `iterdir()` would yield (empty for a file). -/
def FSTree.childrenL : FSTree → List FSTree
  | FSTree.file _ _ _ => []
  | FSTree.dir _ _ gs => gs

/-- File bytes (`[]` for a directory, whose tar entry carries no data). -/
def FSTree.contentData : FSTree → List Nat
  | FSTree.file _ c _ => c
  | FSTree.dir _ _ _ => []

/-- The comparator of `sorted(current_dir.iterdir(), key=lambda x: x.name)`. -/
def nmRel (a b : FSTree) : Prop := strLe a.nm b.nm = true

instance : DecidableRel nmRel := fun a b => instDecidableEqBool (strLe a.nm b.nm) true

/-- `str(relative_path)` for a relative path given by its components. -/
def pathStr : List String → String
  | [] => ""
  | [n] => n
  | n :: rest => n ++ "/" ++ pathStr rest

/-- The comparator of `files.sort(key=lambda x: str(x[1]))`. -/
def entryRel (a b : List String × FSTree) : Prop :=
  strLe (pathStr a.1) (pathStr b.1) = true

instance : DecidableRel entryRel :=
  fun a b => instDecidableEqBool (strLe (pathStr a.1) (pathStr b.1)) true

/-- `_get_sorted_file_list.add_files_recursively(current_dir, base)`
collecting into `files`, with `pre` the components of `current_dir`
relative to the base and `items` the children `iterdir()` yields: visit
the children sorted by name, record each item's path relative to the
source root, and recurse into directories. -/
def add_files_recursively (pre : List String) (items : List FSTree) :
    List (List String × FSTree) :=
  ((List.insertionSort nmRel items).attach.map (fun c =>
    (pre ++ [c.1.nm], c.1) ::
      (if c.1.isDirB then add_files_recursively (pre ++ [c.1.nm]) c.1.childrenL
       else []))).flatten
termination_by sizeOf items
decreasing_by
  have hmem : c.1 ∈ items := (List.mem_insertionSort nmRel).mp c.2
  have h1 : sizeOf c.1 < sizeOf items := List.sizeOf_lt_of_mem hmem
  have h2 : sizeOf c.1.childrenL ≤ sizeOf c.1 := by
    rcases c.1 with _ | ⟨n, m, gs⟩ <;> simp [FSTree.childrenL] <;> omega
  omega

/-- `CompressionEngine._get_sorted_file_list(directory)` applied to the
directory's children: collect recursively from the directory itself as
relative base (`pre = []`), then `files.sort(key=lambda x: str(x[1]))`. -/
def _get_sorted_file_list (children : List FSTree) : List (List String × FSTree) :=
  List.insertionSort entryRel (add_files_recursively [] children)

/-- The comparator on metadata-stripped entries (same key: the path). -/
def entryRelS (a b : List String × Bool × List Nat) : Prop :=
  strLe (pathStr a.1) (pathStr b.1) = true

instance : DecidableRel entryRelS :=
  fun a b => instDecidableEqBool (strLe (pathStr a.1) (pathStr b.1)) true

/-- A member of the tar stream: the fields of the `TarInfo` the code
builds, plus the data bytes `addfile` streams after it. -/
structure TarEntry where
  path : String
  uid : Nat
  gid : Nat
  uname : String
  gname : String
  mtime : Nat
  isDir : Bool
  content : List Nat
deriving DecidableEq, Repr

/-- `tar.gettarinfo(path, arcname)`: a `TarInfo` populated from `stat`. -/
def gettarinfo (arcname : String) (t : FSTree) : TarEntry :=
  { path := arcname,
    uid := t.meta.uid, gid := t.meta.gid,
    uname := t.meta.uname, gname := t.meta.gname,
    mtime := t.meta.mtime,
    isDir := t.isDirB, content := t.contentData }

/-- The deterministic-property block the code applies to every `tarinfo`:
`uid = gid = 0`, `uname = gname = "root"`, `mtime = 0`. -/
def setDeterministic (ti : TarEntry) : TarEntry :=
  { ti with uid := 0, gid := 0, uname := "root", gname := "root", mtime := 0 }

/-- `CompressionEngine.create_deterministic_tar`, as the sequence of tar
entries written: a single source file becomes one entry named by its base
name; a directory becomes the sorted file list with every entry's
metadata forced deterministic.  (Byte-identical tar streams correspond
exactly to equal entry sequences, since PAX serialization of an entry is a
function of its `TarInfo` fields and data.) -/
def create_deterministic_tar : FSTree → List TarEntry
  | FSTree.file n c m => [setDeterministic (gettarinfo n (FSTree.file n c m))]
  | FSTree.dir _ _ children =>
    (_get_sorted_file_list children).map
      (fun e => setDeterministic (gettarinfo (pathStr e.1) e.2))

/-- What one stripped entry becomes in the tar stream: the metadata fields
are the forced deterministic values, everything else is the entry's own
path and content. -/
def mkDetEntry (p : List String × Bool × List Nat) : TarEntry :=
  { path := pathStr p.1, uid := 0, gid := 0, uname := "root", gname := "root",
    mtime := 0, isDir := p.2.1, content := p.2.2 }

/-- A name a real directory entry can carry: nonempty and without the path
separator. -/
def validName (s : String) : Bool :=
  ¬s.data.isEmpty && s.data.all (fun c => c ≠ '/')

/-- Well-formedness of a directory's children list as a filesystem
guarantees it: names are valid and pairwise distinct at every level. -/
def wfForest (items : List FSTree) : Bool :=
  items.all (fun c => validName c.nm) &&
  decide (List.Nodup (items.map FSTree.nm)) &&
  items.attach.all (fun c =>
    if c.1.isDirB then wfForest c.1.childrenL else true)
termination_by sizeOf items
decreasing_by
  have h1 : sizeOf c.1 < sizeOf items := List.sizeOf_lt_of_mem c.2
  have h2 : sizeOf c.1.childrenL ≤ sizeOf c.1 := by
    rcases c.1 with _ | ⟨n, m, gs⟩ <;> simp [FSTree.childrenL] <;> omega
  omega

/-- Content view of a collected entry: relative path plus what the entry
stores in the archive (kind and file bytes), with the stat metadata — the
data the claims allow to differ between the two runs — erased. -/
def stripEntry (e : List String × FSTree) : List String × Bool × List Nat :=
  (e.1, e.2.isDirB, e.2.contentData)

/-! ## Concrete inputs used by counterexamples and witnesses -/

/-- Sample stat metadata (nonzero everywhere, so the forcing below is
visible). -/
def exMetaA : FileMeta :=
  { uid := 1000, gid := 1000, uname := "alice", gname := "staff",
    mtime := 1700000000 }

/-- Different stat metadata for the second traversal. -/
def exMetaB : FileMeta :=
  { uid := 502, gid := 20, uname := "bob", gname := "wheel",
    mtime := 1800000000 }

/-- A source root named `a` that contains a child directory also named
`a`. -/
def exRootDup : FSTree :=
  FSTree.dir "a" exMetaA
    [FSTree.dir "a" exMetaA [FSTree.file "b" [1] exMetaA]]

/-- First witness children list: a file and a subdirectory, owned by
`alice`, visited in one order. -/
def wCs1 : List FSTree :=
  [FSTree.file "b.txt" [10, 20] exMetaA,
   FSTree.dir "sub" exMetaA [FSTree.file "c" [3] exMetaA]]

/-- The same content owned by `bob` with different timestamps, visited in
the opposite order. -/
def wCs2 : List FSTree :=
  [FSTree.dir "sub" exMetaB [FSTree.file "c" [3] exMetaB],
   FSTree.file "b.txt" [10, 20] exMetaB]

/-- Exit code of a pack run: `typer.Exit(code)` carries `code`; falling
through the command body exits 0. -/
def packExitCode : PackOutcome → Nat
  | PackOutcome.exited c _ => c
  | PackOutcome.completed _ _ => 0

/-- Whether `organizer.cleanup_partial_files()` ran during the pack run. -/
def packCleanupRan : PackOutcome → Bool
  | PackOutcome.exited _ b => b
  | PackOutcome.completed _ _ => false

/-- A pack environment where everything is healthy except that the `par2`
binary is absent, and PAR2 generation was requested (no `--no-par2`). -/
def packEnvPar2Missing : PackEnv :=
  { sysCheckOk := true, outputsExist := false, compressOk := true,
    hashOk := true, par2ToolPresent := false, par2RunOk := true,
    noCheck := false, noPar2 := false }

/-- A healthy archive whose two sidecar files are simply absent. -/
def archiveNoSidecars : ArchiveFS :=
  { sha256SidecarExists := false, sha256Expected := "",
    blake3SidecarExists := false, blake3Expected := "",
    sha256Live := "aa11", blake3Live := "bb22",
    zstdOk := true, tarOk := true }

/-- A small tar payload (30 bytes, so the size table picks window log 20). -/
def exSmallTar : List Nat := List.replicate 30 3

/-- A `.tar.zst` artifact produced by the pipeline with its defaults
(64-bit non-Windows, level 19, long mode). -/
def exZstFile : List Nat := compress_with_zstd true false exSmallTar 19 true

/-- The same input compressed with `--no-long` (standard branch: no
explicit window log is forced on the codec). -/
def exNoLongArtifact : List Nat := compress_with_zstd true false exSmallTar 19 false

/-- Bytes beginning with a zstd skippable-frame magic: they parse, but
carry no window size. -/
def exSkippableFile : List Nat := [0x50, 0x2A, 0x4D, 0x18, 0, 0, 0, 0]

/-!
# Theorems

Claim-by-claim results.  Helper lemmas come first, each claim's theorem,
counterexample and witness are marked with the claim id from the review
sheet.
-/

/-! ### Helper lemmas: zstd frame model -/

/-- Setting a byte at or beyond index `n` does not change the first `n`
bytes. -/
theorem take_set_of_le {α : Type} (v : α) :
    ∀ (l : List α) (i n : Nat), n ≤ i → (l.set i v).take n = l.take n := by
  intro l
  induction l with
  | nil => intro i n _; rfl
  | cons a t ih =>
    intro i n h
    cases i with
    | zero =>
      have : n = 0 := Nat.le_zero.mp h
      subst this; rfl
    | succ j =>
      cases n with
      | zero => rfl
      | succ m =>
        simp only [List.set, List.take]
        rw [ih j m (Nat.le_of_succ_le_succ h)]

/-- Parsing the frame header the codec writes for a forced window log
`w ≥ 10` recovers window size `2 ^ w` (and the checksum flag). -/
theorem parse_forced_header (w : Nat) (p : List Nat) (hw : 10 ≤ w) :
    zstd_get_frame_parameters ((zstdFrameHeader w ++ p).take 18) =
      some { window_size := 2 ^ w, has_checksum := true } := by
  have h8 : (w - 10) * 8 / 8 = w - 10 := Nat.mul_div_cancel _ (by norm_num)
  have h10 : 10 + (w - 10) = w := by omega
  simp [zstdFrameHeader, zstd_get_frame_parameters, List.take, h8, h10]

/-- Reading the window log back from a file whose header parses to a
power-of-two window. -/
theorem get_zstd_window_log_of_parse (file : List Nat) (w : Nat)
    (h : zstd_get_frame_parameters (file.take 18) =
      some { window_size := 2 ^ w, has_checksum := true }) :
    get_zstd_window_log file = w := by
  have h2 : (2 : Nat) ^ w ≠ 0 := by positivity
  unfold get_zstd_window_log
  rw [h]
  show (if (2 ^ w : Nat) ≠ 0 then Nat.log 2 (2 ^ w) else 23) = w
  rw [if_pos h2]
  exact Nat.log_pow one_lt_two w

/-- The size table never chooses a window log below 10 (its values are
20, 24, 27 and the platform ceilings 29–31). -/
theorem table_window_log_ge_10 (is64 isWin : Bool) (s : Nat) :
    10 ≤ _calculate_optimal_window_log is64 isWin s := by
  unfold _calculate_optimal_window_log
  cases is64 <;> cases isWin <;> split_ifs <;> norm_num

/-! ### C7 — the size-to-window-log table -/

/-- C7: for every input size, the compression stage's table selects
window log 20 below 2 MiB, 24 below 20 MiB, 27 below 200 MiB, and for
larger inputs the platform ceiling: 31 on 64-bit non-Windows and a
strictly lower value on Windows or 32-bit platforms. -/
theorem window_log_size_table (is64 isWin : Bool) (s : Nat) :
    (s < 2 * 1024 * 1024 → _calculate_optimal_window_log is64 isWin s = 20) ∧
    (2 * 1024 * 1024 ≤ s → s < 20 * 1024 * 1024 →
      _calculate_optimal_window_log is64 isWin s = 24) ∧
    (20 * 1024 * 1024 ≤ s → s < 200 * 1024 * 1024 →
      _calculate_optimal_window_log is64 isWin s = 27) ∧
    (200 * 1024 * 1024 ≤ s →
      (is64 = true → isWin = false → _calculate_optimal_window_log is64 isWin s = 31) ∧
      (is64 = false ∨ isWin = true → _calculate_optimal_window_log is64 isWin s < 31)) := by
  unfold _calculate_optimal_window_log
  cases is64 <;> cases isWin <;> refine ⟨?_, ?_, ?_, ?_⟩ <;>
    intros <;> split_ifs <;> simp_all <;> omega

/-- C7 witness: the table evaluated across the four size bands on 64-bit
Linux, and at the large band on 64-bit Windows. -/
theorem window_log_size_table_witness :
    _calculate_optimal_window_log true false 1000 = 20 ∧
    _calculate_optimal_window_log true false (3 * 1024 * 1024) = 24 ∧
    _calculate_optimal_window_log true false (30 * 1024 * 1024) = 27 ∧
    _calculate_optimal_window_log true false (300 * 1024 * 1024) = 31 ∧
    _calculate_optimal_window_log true true (300 * 1024 * 1024) < 31 :=
  ⟨(window_log_size_table true false 1000).1 (by norm_num),
   (window_log_size_table true false _).2.1 (by norm_num) (by norm_num),
   (window_log_size_table true false _).2.2.1 (by norm_num) (by norm_num),
   ((window_log_size_table true false _).2.2.2 (by norm_num)).1 rfl rfl,
   ((window_log_size_table true true _).2.2.2 (by norm_num)).2 (Or.inr rfl)⟩

/-! ### C2 — missing sidecar versus digest mismatch -/

/-- C2 (code evaluated at the failing input): when neither sidecar file
exists, `verify_all_hashes` stores `False` for both checks — the same
value a digest mismatch produces, not an indeterminate third state — so
`verify_single_archive`'s hash fields are `some false` and the verify
command counts the archive as failed and exits 1, even though every check
that could run passed. -/
theorem missing_sidecar_counted_as_failure (fs : ArchiveFS)
    (h1 : fs.sha256SidecarExists = false) (h2 : fs.blake3SidecarExists = false) :
    (verify_single_archive fs).sha256_hash = some false ∧
    (verify_single_archive fs).blake3_hash = some false ∧
    archiveHasFailures (verify_single_archive fs) = true ∧
    verifyExitCode [verify_single_archive fs] = 1 := by
  simp [verify_single_archive, verify_all_hashes, h1, h2,
        archiveHasFailures, resultValues, verifyExitCode]

/-- C2 witness: the healthy archive with absent sidecars. -/
theorem missing_sidecar_counted_as_failure_witness :
    archiveNoSidecars.sha256SidecarExists = false ∧
    archiveNoSidecars.zstdOk = true ∧ archiveNoSidecars.tarOk = true ∧
    verifyExitCode [verify_single_archive archiveNoSidecars] = 1 :=
  ⟨rfl, rfl, rfl, (missing_sidecar_counted_as_failure archiveNoSidecars rfl rfl).2.2.2⟩

/-! ### C5 — pack behaviour when the PAR2 tool is missing -/

/-- C5 counterexample: with every earlier stage healthy and PAR2
requested, a missing `par2` binary does **not** abort `pack`: the run
completes (exit status 0), no partial-output cleanup is triggered, and the
error is only recorded as `par2_error`. -/
theorem pack_par2_missing_continues :
    pack_main packEnvPar2Missing =
      PackOutcome.completed false
        (some "par2 command not found in PATH. Please ensure par2cmdline-turbo is installed") ∧
    packExitCode (pack_main packEnvPar2Missing) = 0 ∧
    packCleanupRan (pack_main packEnvPar2Missing) = false := by
  refine ⟨rfl, rfl, rfl⟩

/-- C5 (amended): when the `par2` tool is missing and PAR2 generation was
requested, `pack` catches the error, records the diagnostic, continues,
and exits 0 without cleaning its outputs; by contrast a compression
failure, or a hash failure with checking enabled, aborts with exit status
1 after cleaning partial output. -/
theorem pack_error_policy (env : PackEnv) :
    (env.sysCheckOk = true → env.outputsExist = false → env.compressOk = true →
     (env.noCheck = true ∨ env.hashOk = true) →
     env.noPar2 = false → env.par2ToolPresent = false →
       pack_main env =
         PackOutcome.completed false
           (some "par2 command not found in PATH. Please ensure par2cmdline-turbo is installed") ∧
       packExitCode (pack_main env) = 0 ∧
       packCleanupRan (pack_main env) = false) ∧
    (env.sysCheckOk = true → env.outputsExist = false → env.compressOk = false →
       pack_main env = PackOutcome.exited 1 true) ∧
    (env.sysCheckOk = true → env.outputsExist = false → env.compressOk = true →
     env.noCheck = false → env.hashOk = false →
       pack_main env = PackOutcome.exited 1 true) := by
  refine ⟨?_, ?_, ?_⟩
  · rintro hs ho hc (hnc | hh) hp ht
    · simp [pack_main, par2_generate, _find_par2_command, packExitCode,
            packCleanupRan, hs, ho, hc, hnc, hp, ht]
    · simp [pack_main, par2_generate, _find_par2_command, packExitCode,
            packCleanupRan, hs, ho, hc, hh, hp, ht]
  · intro hs ho hc
    simp [pack_main, hs, ho, hc]
  · intro hs ho hc hnc hh
    simp [pack_main, hs, ho, hc, hnc, hh]

/-- C5 witness: the amended policy applied to the concrete environment of
the counterexample. -/
theorem pack_error_policy_witness :
    packEnvPar2Missing.sysCheckOk = true ∧
    packEnvPar2Missing.par2ToolPresent = false ∧
    packExitCode (pack_main packEnvPar2Missing) = 0 :=
  ⟨rfl, rfl,
    ((pack_error_policy packEnvPar2Missing).1 rfl rfl rfl (Or.inr rfl) rfl rfl).2.1⟩

/-! ### Helper lemmas: `split("/")` and the top-level test -/

/-- `split` never returns an empty list (Python's `split` always yields at
least one piece). -/
theorem splitSlashCl_ne_nil : ∀ l : List Char, splitSlashCl l ≠ []
  | [] => by simp [splitSlashCl]
  | c :: cs => by
    by_cases hc : c = '/'
    · simp [splitSlashCl, hc]
    · cases h : splitSlashCl cs with
      | nil => simp [splitSlashCl, hc, h]
      | cons r rs => simp [splitSlashCl, hc, h]

/-- `split` yields the single empty piece exactly on the empty string. -/
theorem splitSlashCl_eq_single_nil (l : List Char) :
    splitSlashCl l = [[]] ↔ l = [] := by
  constructor
  · intro h
    cases l with
    | nil => rfl
    | cons c cs =>
      by_cases hc : c = '/'
      · rw [splitSlashCl, if_pos hc] at h
        exact absurd (List.cons.inj h).2 (splitSlashCl_ne_nil cs)
      · rw [splitSlashCl, if_neg hc] at h
        cases h2 : splitSlashCl cs with
        | nil => exact absurd h2 (splitSlashCl_ne_nil cs)
        | cons r rs => rw [h2] at h; simp at h
  · rintro rfl; rfl

/-- `isTopLevel` is `topLevelCl` of the path's characters. -/
theorem isTopLevel_eq_topLevelCl (e : SEntry) :
    isTopLevel e = topLevelCl e.path.data := by
  unfold isTopLevel topLevelCl pathParts
  cases h : splitSlashCl e.path.data with
  | nil => simp
  | cons r rs =>
    cases rs with
    | nil => simp
    | cons t ts =>
      cases ts with
      | nil =>
        simp only [List.map]
        show decide (String.mk t = "") = t.isEmpty
        rcases t with _ | ⟨c, t'⟩
        · simp
        · simp [String.ext_iff]
      | cons u us => simp

/-- A string whose only separator is final. -/
theorem topLevelCl_slash (cs : List Char) :
    topLevelCl ('/' :: cs) = true ↔ cs = [] := by
  unfold topLevelCl
  rw [splitSlashCl, if_pos rfl]
  cases h : splitSlashCl cs with
  | nil => exact absurd h (splitSlashCl_ne_nil cs)
  | cons r rs =>
    cases rs with
    | nil =>
      simp only [List.isEmpty_iff]
      constructor
      · intro hr
        exact (splitSlashCl_eq_single_nil cs).mp (by rw [h, hr])
      · rintro rfl
        simp [splitSlashCl] at h
        simp [h]
    | cons t ts =>
      simp only [Bool.false_eq_true, false_iff]
      intro hcs
      subst hcs
      simp [splitSlashCl] at h

/-- A leading non-separator character does not change the top-level test. -/
theorem topLevelCl_cons (c : Char) (cs : List Char) (hc : c ≠ '/') :
    topLevelCl (c :: cs) = topLevelCl cs := by
  unfold topLevelCl
  rw [splitSlashCl, if_neg hc]
  cases h : splitSlashCl cs with
  | nil => exact absurd h (splitSlashCl_ne_nil cs)
  | cons r rs =>
    cases rs with
    | nil => rfl
    | cons t ts => cases ts <;> rfl

/-- Characterization of the code's top-level test: a path is top-level
exactly when it contains no separator at all, or exactly one separator
standing at its very end. -/
theorem topLevelCl_iff (l : List Char) :
    topLevelCl l = true ↔
      (l.count '/' = 0 ∨ ∃ p, l = p ++ ['/'] ∧ p.count '/' = 0) := by
  induction l with
  | nil => simp [topLevelCl, splitSlashCl]
  | cons c cs ih =>
    by_cases hc : c = '/'
    · subst hc
      rw [topLevelCl_slash]
      constructor
      · rintro rfl
        exact Or.inr ⟨[], rfl, rfl⟩
      · rintro (h | ⟨p, hp, hcount⟩)
        · simp [List.count_cons] at h
        · cases p with
          | nil => simpa using hp
          | cons q qs =>
            injection hp with h1 h2
            subst h1
            simp [List.count_cons] at hcount
    · rw [topLevelCl_cons c cs hc, ih]
      have hcnt : (c :: cs).count '/' = cs.count '/' := by
        simp [List.count_cons, hc]
      constructor
      · rintro (h | ⟨p, hp, h0⟩)
        · exact Or.inl (by rw [hcnt]; exact h)
        · refine Or.inr ⟨c :: p, by simp [hp], ?_⟩
          simp [List.count_cons, hc, h0]
      · rintro (h | ⟨p, hp, h0⟩)
        · exact Or.inl (by rw [hcnt] at h; exact h)
        · cases p with
          | nil =>
            simp only [List.nil_append] at hp
            injection hp with h1 h2
            exact absurd h1 hc
          | cons q qs =>
            simp only [List.cons_append] at hp
            injection hp with h1 h2
            subst h1
            refine Or.inr ⟨qs, h2, ?_⟩
            simp [List.count_cons, hc] at h0
            exact h0

/-! ### C8 — `_analyze_structure` classification -/

/-- C8 counterexample: the archive consisting of the single entry
`"a/b"` (a file).  Under the claim's partition criterion ("zero or one
separator") it is the unique top-level entry and not a directory, so the
claim classifies the archive `singleFile`; the code does not treat `"a/b"`
as top-level (it splits into two nonempty parts) and classifies the
archive `unknown` instead. -/
theorem top_level_one_separator_counterexample :
    claimTopLevel { path := "a/b", size := 1, is_dir := false } = true ∧
    List.filter claimTopLevel [{ path := "a/b", size := 1, is_dir := false }] =
      [{ path := "a/b", size := 1, is_dir := false }] ∧
    ({ path := "a/b", size := 1, is_dir := false } : SEntry).is_dir = false ∧
    isTopLevel { path := "a/b", size := 1, is_dir := false } = false ∧
    (_analyze_structure [{ path := "a/b", size := 1, is_dir := false }]).type =
      SKind.unknownKind ∧
    SKind.unknownKind ≠ SKind.single_file := by
  refine ⟨by decide, by decide, rfl, by decide, by decide, by decide⟩

/-- C8 (amended): with top-level meaning "the path has no separator, or a
single separator in final position" — the code's criterion, characterized
in the first conjunct — `_analyze_structure` classifies an empty entry
list as `empty`; a unique top-level entry that is a directory as
`single_root`, setting `root_folder` to its path; a unique top-level
non-directory as `single_file`; two or more top-level entries as
`multiple_roots` with the directory/file counts in the description; and
`root_folder` (resp. `has_single_root`) is set iff the kind is
`single_root`. -/
theorem analyze_structure_spec (entries : List SEntry) :
    (∀ e : SEntry, isTopLevel e = true ↔
       (e.path.data.count '/' = 0 ∨
        ∃ p, e.path.data = p ++ ['/'] ∧ p.count '/' = 0)) ∧
    (_analyze_structure [] =
      { type := SKind.empty, description := "Empty archive",
        has_single_root := false, root_folder := none }) ∧
    (∀ e, entries ≠ [] → entries.filter isTopLevel = [e] → e.is_dir = true →
       _analyze_structure entries =
         { type := SKind.single_root,
           description := "Single root folder: " ++ e.path,
           has_single_root := true, root_folder := some e.path }) ∧
    (∀ e, entries ≠ [] → entries.filter isTopLevel = [e] → e.is_dir = false →
       _analyze_structure entries =
         { type := SKind.single_file,
           description := "Single file: " ++ e.path,
           has_single_root := false, root_folder := none }) ∧
    (entries ≠ [] → 2 ≤ (entries.filter isTopLevel).length →
       (_analyze_structure entries).type = SKind.multiple_roots ∧
       (_analyze_structure entries).description =
         "Multiple top-level entries: "
           ++ natToStr ((entries.filter isTopLevel).filter (fun e => e.is_dir)).length
           ++ " dirs, "
           ++ natToStr ((entries.filter isTopLevel).length
               - ((entries.filter isTopLevel).filter (fun e => e.is_dir)).length)
           ++ " files") ∧
    ((_analyze_structure entries).root_folder.isSome = true ↔
       (_analyze_structure entries).type = SKind.single_root) ∧
    ((_analyze_structure entries).has_single_root = true ↔
       (_analyze_structure entries).type = SKind.single_root) := by
  refine ⟨?_, rfl, ?_, ?_, ?_, ?_, ?_⟩
  · intro e
    rw [isTopLevel_eq_topLevelCl]
    exact topLevelCl_iff e.path.data
  · intro e hne hf hd
    cases entries with
    | nil => exact absurd rfl hne
    | cons a as => simp [_analyze_structure, hf, hd]
  · intro e hne hf hd
    cases entries with
    | nil => exact absurd rfl hne
    | cons a as => simp [_analyze_structure, hf, hd]
  · intro hne hlen
    cases entries with
    | nil => exact absurd rfl hne
    | cons a as =>
      cases hf : (a :: as).filter isTopLevel with
      | nil => rw [hf] at hlen; simp at hlen
      | cons t1 rest =>
        cases rest with
        | nil => rw [hf] at hlen; simp at hlen
        | cons t2 r2 => constructor <;> simp [_analyze_structure, hf]
  · cases entries with
    | nil => simp [_analyze_structure]
    | cons a as =>
      cases hf : (a :: as).filter isTopLevel with
      | nil => simp [_analyze_structure, hf]
      | cons t1 rest =>
        cases rest with
        | nil => by_cases hd : t1.is_dir <;> simp [_analyze_structure, hf, hd]
        | cons t2 r2 => simp [_analyze_structure, hf]
  · cases entries with
    | nil => simp [_analyze_structure]
    | cons a as =>
      cases hf : (a :: as).filter isTopLevel with
      | nil => simp [_analyze_structure, hf]
      | cons t1 rest =>
        cases rest with
        | nil => by_cases hd : t1.is_dir <;> simp [_analyze_structure, hf, hd]
        | cons t2 r2 => simp [_analyze_structure, hf]

/-- C8 witness: a one-directory archive (trailing-separator path) is
classified `single_root` with its `root_folder` set. -/
theorem analyze_structure_spec_witness :
    List.filter isTopLevel [({ path := "root/", size := 5, is_dir := true } : SEntry)] =
      [{ path := "root/", size := 5, is_dir := true }] ∧
    _analyze_structure [{ path := "root/", size := 5, is_dir := true }] =
      { type := SKind.single_root, description := "Single root folder: root/",
        has_single_root := true, root_folder := some "root/" } := by
  constructor
  · decide
  · have h := (analyze_structure_spec
      [{ path := "root/", size := 5, is_dir := true }]).2.2.1
      { path := "root/", size := 5, is_dir := true } (by simp) (by decide) rfl
    rw [h]
    decide

/-! ### C9 — `detect_format` totality and precedence -/

/-- C9 counterexample: an existing but unreadable file named `data.zip`
is detected as `zip` via its extension — not as `unknown`, as the claim
requires for unreadable files. -/
theorem unreadable_known_ext_not_unknown :
    unreadableZip.content = none ∧
    detect_format unreadableZip = ArchiveFormat.zip ∧
    ArchiveFormat.zip ≠ ArchiveFormat.unknown := by
  refine ⟨rfl, by decide, by decide⟩

/-- First match in a list sorted by descending measure has maximal
measure among the matches. -/
theorem find_desc_sorted {α : Type} (len : α → Nat) (p : α → Bool) :
    ∀ l : List α, List.Pairwise (fun a b => len b ≤ len a) l →
      ∀ x ∈ l, p x = true →
        ∃ y, l.find? p = some y ∧ p y = true ∧ len x ≤ len y := by
  intro l
  induction l with
  | nil => intro _ x hx; exact absurd hx (List.not_mem_nil x)
  | cons a t ih =>
    intro hpw x hx hpx
    by_cases hpa : p a = true
    · exact ⟨a, by simp [List.find?, hpa], hpa, by
        rcases List.mem_cons.mp hx with rfl | hxt
        · exact Nat.le_refl _
        · exact (List.pairwise_cons.mp hpw).1 x hxt⟩
    · have hxt : x ∈ t := by
        rcases List.mem_cons.mp hx with rfl | hxt
        · exact absurd hpx hpa
        · exact hxt
      obtain ⟨y, hy, hpy, hlen⟩ := ih (List.pairwise_cons.mp hpw).2 x hxt hpx
      refine ⟨y, ?_, hpy, hlen⟩
      simp [List.find?, hpa, hy]

/-- For an existing regular file, detection reduces to: extension tag if
that is not `unknown`, else magic-byte tag. -/
theorem detect_format_present (f : FileModel) (h1 : f.present = true)
    (h2 : f.isFile = true) :
    detect_format f =
      (if _detect_by_ext f.fileName ≠ ArchiveFormat.unknown
       then _detect_by_ext f.fileName
       else _detect_by_magic_bytes f.content) := by
  simp only [detect_format, h1, h2]
  generalize _detect_by_ext f.fileName = A
  generalize _detect_by_magic_bytes f.content = B
  by_cases hAB : A = B
  · subst hAB
    simp
  · by_cases hA : A = ArchiveFormat.unknown
    · subst hA
      simp [hAB, Ne.symm hAB]
    · simp [hAB, hA]

/-- C9 (amended): `detect_format` is a total function; a nonexistent or
non-regular path yields `unknown`; for an existing regular file the result
is the extension tag when that is not `unknown` and the magic-byte tag
otherwise (so extension wins every disagreement and a single non-`unknown`
method is trusted); an unreadable file falls back to pure extension
detection (so it yields the extension tag, `unknown` only when no known
suffix matches); and among the known extensions the longest matching
suffix decides, so compound suffixes beat their tails. -/
theorem detect_format_spec :
    (∀ f : FileModel, f.present = false ∨ f.isFile = false →
       detect_format f = ArchiveFormat.unknown) ∧
    (∀ f : FileModel, f.present = true → f.isFile = true →
       detect_format f =
         (if _detect_by_ext f.fileName ≠ ArchiveFormat.unknown
          then _detect_by_ext f.fileName
          else _detect_by_magic_bytes f.content)) ∧
    (∀ f : FileModel, f.present = true → f.isFile = true → f.content = none →
       detect_format f = _detect_by_ext f.fileName) ∧
    (∀ (name : String) (em : String × ArchiveFormat), em ∈ extMapping →
       strEndsWith (strLower name) em.1 = true →
       ∃ em', em' ∈ extMapping ∧ _detect_by_ext name = em'.2 ∧
         strEndsWith (strLower name) em'.1 = true ∧ em.1.length ≤ em'.1.length) := by
  refine ⟨?_, ?_, ?_, ?_⟩
  · rintro f (h | h) <;> simp [detect_format, h]
  · exact detect_format_present
  · intro f h1 h2 h3
    rw [detect_format_present f h1 h2, h3]
    by_cases hu : _detect_by_ext f.fileName = ArchiveFormat.unknown <;>
      simp [_detect_by_magic_bytes, hu]
  · intro name em hm hend
    have hsorted : List.Pairwise (fun a b : String × ArchiveFormat =>
        b.1.length ≤ a.1.length) (List.insertionSort extLenGe extMapping) :=
      List.sorted_insertionSort extLenGe extMapping
    have hmem : em ∈ List.insertionSort extLenGe extMapping :=
      (List.mem_insertionSort extLenGe).mpr hm
    obtain ⟨y, hy, hpy, hlen⟩ := find_desc_sorted
      (fun em : String × ArchiveFormat => em.1.length)
      (fun em => strEndsWith (strLower name) em.1)
      (List.insertionSort extLenGe extMapping) hsorted em hmem hend
    refine ⟨y, (List.mem_insertionSort extLenGe).mp (List.mem_of_find?_eq_some hy),
      ?_, hpy, hlen⟩
    show _detect_by_ext name = y.2
    unfold _detect_by_ext
    rw [hy]
    rfl

/-- C9 witness: the longest-suffix rule applied to `x.tar.gz` with the
matching extension `.gz`, plus concrete evaluations: `.tar.gz` beats
`.gz`, and the unreadable `data.zip` resolves by extension. -/
theorem detect_format_spec_witness :
    ((".gz", ArchiveFormat.gz) ∈ extMapping ∧
      strEndsWith (strLower "x.tar.gz") ".gz" = true) ∧
    (∃ em', em' ∈ extMapping ∧ _detect_by_ext "x.tar.gz" = em'.2 ∧
      strEndsWith (strLower "x.tar.gz") em'.1 = true ∧
      (".gz" : String).length ≤ em'.1.length) ∧
    _detect_by_ext "x.tar.gz" = ArchiveFormat.tar_gz ∧
    detect_format unreadableZip = _detect_by_ext "data.zip" :=
  ⟨⟨by decide, by decide⟩,
   detect_format_spec.2.2.2 "x.tar.gz" (".gz", ArchiveFormat.gz) (by decide) (by decide),
   by decide,
   detect_format_spec.2.2.1 unreadableZip rfl rfl rfl⟩

/-! ### Helper lemmas: substrings, split pieces, path resolution -/

/-- The Boolean substring test agrees with `List.IsInfix`. -/
theorem hasInfixCl_iff (sub : List Char) :
    ∀ l : List Char, hasInfixCl sub l = true ↔ sub <:+: l := by
  intro l
  induction l with
  | nil =>
    simp only [hasInfixCl, List.isEmpty_iff]
    constructor
    · rintro rfl; exact List.nil_infix
    · intro h; exact List.eq_nil_of_infix_nil h
  | cons c cs ih =>
    simp only [hasInfixCl, Bool.or_eq_true, List.isPrefixOf_iff_prefix, ih]
    exact Iff.symm List.infix_cons_iff

/-- The first piece `split` returns is a prefix of the input. -/
theorem splitSlashCl_head_piece :
    ∀ l : List Char, ∃ r rs, splitSlashCl l = r :: rs ∧ r <+: l := by
  intro l
  induction l with
  | nil => exact ⟨[], [], rfl, List.nil_prefix⟩
  | cons c cs ih =>
    by_cases hc : c = '/'
    · exact ⟨[], splitSlashCl cs, by rw [splitSlashCl, if_pos hc], List.nil_prefix⟩
    · obtain ⟨r, rs, hsplit, ⟨t, ht⟩⟩ := ih
      refine ⟨c :: r, rs, ?_, ⟨t, ?_⟩⟩
      · rw [splitSlashCl, if_neg hc, hsplit]
      · simp [ht]

/-- Every piece `split` returns occurs contiguously in the input. -/
theorem splitSlashCl_mem_infix :
    ∀ (l : List Char) (p : List Char), p ∈ splitSlashCl l → p <:+: l := by
  intro l
  induction l with
  | nil =>
    intro p hp
    simp [splitSlashCl] at hp
    subst hp
    exact List.nil_infix
  | cons c cs ih =>
    intro p hp
    by_cases hc : c = '/'
    · rw [splitSlashCl, if_pos hc] at hp
      rcases List.mem_cons.mp hp with rfl | hmem
      · exact List.nil_infix
      · exact List.infix_cons (ih p hmem)
    · obtain ⟨r, rs, hsplit, hpre⟩ := splitSlashCl_head_piece cs
      rw [splitSlashCl, if_neg hc, hsplit] at hp
      rcases List.mem_cons.mp hp with rfl | hmem
      · obtain ⟨t, ht⟩ := hpre
        have hpc : (c :: r) <+: (c :: cs) := ⟨t, by simp [ht]⟩
        exact hpc.isInfix
      · exact List.infix_cons (ih p (by rw [hsplit]; exact List.mem_cons_of_mem r hmem))

/-- If a path string does not contain `".."` as a substring, none of its
`/`-separated components is the literal `".."`. -/
theorem no_dotdot_component (s : String) (h : strContains s ".." = false) :
    ∀ p ∈ pathParts s, p ≠ ".." := by
  intro p hp heq
  subst heq
  obtain ⟨q, hq, hmk⟩ := List.mem_map.mp hp
  have hdata : q = ['.', '.'] := by
    have := congrArg String.data hmk
    simpa using this
  subst hdata
  have hinf : ['.', '.'] <:+: s.data := splitSlashCl_mem_infix s.data _ hq
  have : strContains s ".." = true := by
    unfold strContains
    exact (hasInfixCl_iff _ s.data).mpr (by simpa using hinf)
  rw [h] at this
  exact Bool.false_ne_true this

/-- Resolving components that never contain `".."` can only descend:
the starting directory stays a prefix of the resolved location. -/
theorem resolveComps_stays_under :
    ∀ (parts : List String) (acc : List String), (∀ p ∈ parts, p ≠ "..") →
      acc <+: resolveComps acc parts := by
  intro parts
  induction parts with
  | nil => intro acc _; exact List.prefix_refl acc
  | cons c cs ih =>
    intro acc hno
    rw [resolveComps, if_neg (hno c (List.mem_cons_self c cs))]
    by_cases hc : c = "." ∨ c = ""
    · rw [if_pos hc]
      exact ih acc (fun p hp => hno p (List.mem_cons_of_mem c hp))
    · rw [if_neg hc]
      have hstep := List.prefix_append acc [c]
      exact hstep.trans
        (ih (acc ++ [c]) (fun p hp => hno p (List.mem_cons_of_mem c hp)))

/-- Resolving components among which none is empty, `.` or `..` is plain
appending: the sanitized zip target is also the final filesystem location. -/
theorem resolveComps_no_special :
    ∀ (parts : List String) (acc : List String),
      (∀ p ∈ parts, ¬(p = "" ∨ p = "." ∨ p = "..")) →
      resolveComps acc parts = acc ++ parts := by
  intro parts
  induction parts with
  | nil => intro acc _; simp [resolveComps]
  | cons c cs ih =>
    intro acc hno
    have hc := hno c (List.mem_cons_self c cs)
    rw [resolveComps, if_neg (fun h => hc (Or.inr (Or.inr h))),
      if_neg (fun h => hc (h.elim (fun h1 => Or.inr (Or.inl h1)) (fun h1 => Or.inl h1))),
      ih (acc ++ [c]) (fun p hp => hno p (List.mem_cons_of_mem c hp))]
    simp

/-! ### C3 — extraction path-traversal guard -/

/-- C3 counterexample: on a non-Windows platform neither archive handler
skips an entry or emits a warning.  The tar handler materializes the
`../evil.txt` member at its raw joined path, which resolves outside the
destination directory; the zip handler extracts the same entry too — the
stdlib silently drops the `..` component and relocates it to `evil.txt`
inside the destination instead of skipping it with a warning.  Only
`CompressionEngine`'s own `extract_tar_archive` has a guard. -/
theorem handlers_no_traversal_guard_counterexample :
    (TarHandler_extract_all_posix ["srv", "out"] evilMembers).2 = [] ∧
    (ZipHandler_extract_all_posix ["srv", "out"] evilMembers).2 = [] ∧
    ({ name := "../evil.txt" }, ["srv", "evil.txt"]) ∈
      (TarHandler_extract_all_posix ["srv", "out"] evilMembers).1 ∧
    escapesDest ["srv", "out"] "../evil.txt" = true ∧
    ({ name := "../evil.txt" }, ["srv", "out", "evil.txt"]) ∈
      (ZipHandler_extract_all_posix ["srv", "out"] evilMembers).1 := by
  refine ⟨rfl, rfl, by decide, by decide, by decide⟩

/-- C3 (amended): only `CompressionEngine.extract_tar_archive` guards
against path traversal: it extracts exactly the members whose name neither
starts with `/` nor contains `..` anywhere (a substring test, stricter
than a `..`-segment test), emits one warning per rejected member rather
than failing, and every member it does extract resolves inside the
destination directory.  The archive handlers (non-Windows branch) skip
nothing and warn about nothing: `TarHandler.extract_all` materializes
every member at its raw joined path, so a `..` member escapes the
destination (see the counterexample), while `ZipHandler.extract_all`
materializes every entry at the stdlib-sanitized path, which always stays
inside the destination because empty, `.` and `..` components are
silently dropped rather than the entry being skipped. -/
theorem extract_tar_guard_spec (members : List TarMember) (dest : List String) :
    ((extract_tar_archive members).1 =
       members.filter (fun m => ¬dangerousMember m)) ∧
    (∀ m ∈ members, dangerousMember m = true →
       ("Skipping potentially dangerous path: " ++ m.name) ∈
         (extract_tar_archive members).2) ∧
    (∀ m ∈ (extract_tar_archive members).1,
       strStartsWith m.name "/" = false ∧ strContains m.name ".." = false ∧
       escapesDest dest m.name = false) ∧
    ((TarHandler_extract_all_posix dest members).1 =
       members.map (fun m => (m, resolveUnder dest m.name)) ∧
     (TarHandler_extract_all_posix dest members).2 = []) ∧
    ((ZipHandler_extract_all_posix dest members).1 =
       members.map (fun m => (m, dest ++ zipSanitizedParts m.name)) ∧
     (ZipHandler_extract_all_posix dest members).2 = [] ∧
     ∀ m ∈ members,
       resolveComps dest (zipSanitizedParts m.name) =
         dest ++ zipSanitizedParts m.name ∧
       dest <+: dest ++ zipSanitizedParts m.name) := by
  refine ⟨rfl, ?_, ?_, ⟨rfl, rfl⟩, ⟨rfl, rfl, ?_⟩⟩
  · intro m hm hd
    exact List.mem_map.mpr ⟨m, List.mem_filter.mpr ⟨hm, by simp [hd]⟩, rfl⟩
  · intro m hm
    have hsafe : dangerousMember m = false := by
      have := (List.mem_filter.mp hm).2
      simpa using this
    have hparts : strStartsWith m.name "/" = false ∧ strContains m.name ".." = false := by
      unfold dangerousMember at hsafe
      exact ⟨(Bool.or_eq_false_iff.mp hsafe).1, (Bool.or_eq_false_iff.mp hsafe).2⟩
    refine ⟨hparts.1, hparts.2, ?_⟩
    have hpre : dest <+: resolveUnder dest m.name :=
      resolveComps_stays_under (pathParts m.name) dest
        (no_dotdot_component m.name hparts.2)
    simp [escapesDest, List.isPrefixOf_iff_prefix, hpre]
  · intro m _
    refine ⟨?_, List.prefix_append dest _⟩
    apply resolveComps_no_special
    intro p hp
    unfold zipSanitizedParts at hp
    have h2 := (List.mem_filter.mp hp).2
    simpa using h2

/-- C3 witness: the guard applied to the concrete member list — the
benign member survives the filter and stays under the destination, the
traversal member generates the warning, and the zip handler's sanitized
target for the traversal member resolves exactly to its join under the
destination. -/
theorem extract_tar_guard_spec_witness :
    (extract_tar_archive evilMembers).1 = [{ name := "ok.txt" }] ∧
    ("Skipping potentially dangerous path: ../evil.txt") ∈
      (extract_tar_archive evilMembers).2 ∧
    escapesDest ["srv", "out"] "ok.txt" = false ∧
    resolveComps ["srv", "out"] (zipSanitizedParts "../evil.txt") =
      ["srv", "out"] ++ zipSanitizedParts "../evil.txt" := by
  refine ⟨by decide, ?_, ?_, ?_⟩
  · have h := (extract_tar_guard_spec evilMembers ["srv", "out"]).2.1
      { name := "../evil.txt" } (by decide) (by decide)
    simpa using h
  · exact ((extract_tar_guard_spec evilMembers ["srv", "out"]).2.2.1
      { name := "ok.txt" } (by decide)).2.2
  · exact ((extract_tar_guard_spec evilMembers ["srv", "out"]).2.2.2.2.2.2
      { name := "../evil.txt" } (by decide)).1

/-! ### C10 — `get_zstd_window_log` defaults -/

/-- C10: `get_zstd_window_log` is total; whenever the frame header fails
to parse, or parses with no window size, it returns the default 23, and
the window log the decompression path uses is exactly this read-back
value (it proceeds with the default rather than aborting). -/
theorem window_log_default_on_parse_failure (file : List Nat) :
    (zstd_get_frame_parameters (file.take 18) = none →
       get_zstd_window_log file = 23) ∧
    (∀ fp, zstd_get_frame_parameters (file.take 18) = some fp →
       fp.window_size = 0 → get_zstd_window_log file = 23) ∧
    decompress_window_log_used file = get_zstd_window_log file := by
  refine ⟨?_, ?_, rfl⟩
  · intro h; simp [get_zstd_window_log, h]
  · intro fp h hw; simp [get_zstd_window_log, h, hw]

/-- C10 witness: a file that is no frame at all, and a skippable frame
(parses with `window_size = 0`); both yield the default 23, which is also
what decompression uses. -/
theorem window_log_default_on_parse_failure_witness :
    get_zstd_window_log [1, 2, 3] = 23 ∧
    get_zstd_window_log exSkippableFile = 23 ∧
    decompress_window_log_used [1, 2, 3] = get_zstd_window_log [1, 2, 3] :=
  ⟨(window_log_default_on_parse_failure [1, 2, 3]).1 (by decide),
   (window_log_default_on_parse_failure exSkippableFile).2.1
     { window_size := 0, has_checksum := false } (by decide) rfl,
   (window_log_default_on_parse_failure [1, 2, 3]).2.2⟩

/-! ### C4 — what a mid-file byte flip does to `verify_zstd_integrity` -/

/-- C4 counterexample: on a pipeline-produced artifact, flipping the byte
at offset 20 — the middle of the compressed data, beyond the 18-byte
header prefix the check reads — leaves `verify_zstd_integrity` `true`,
contradicting the claim that the flip makes it return `false`. -/
theorem midfile_flip_keeps_zstd_integrity :
    verify_zstd_integrity exZstFile = true ∧
    exZstFile.set 20 9 ≠ exZstFile ∧
    verify_zstd_integrity (exZstFile.set 20 9) = true := by
  refine ⟨by decide, by decide, by decide⟩

/-- C4 (amended): `verify_zstd_integrity` validates only the first 18
bytes of the file, so a byte flip at any offset ≥ 18 never changes its
verdict; corruption that clobbers the header (offset 0) does make it
return `false`. -/
theorem zstd_integrity_header_only :
    (∀ (file : List Nat) (i v : Nat), 18 ≤ i →
       verify_zstd_integrity (file.set i v) = verify_zstd_integrity file) ∧
    verify_zstd_integrity (exZstFile.set 0 0) = false := by
  constructor
  · intro file i v h
    unfold verify_zstd_integrity
    rw [take_set_of_le v file i 18 h]
  · decide

/-- C4 witness: the header-only invariance applied at offset 20 of the
concrete artifact. -/
theorem zstd_integrity_header_only_witness :
    verify_zstd_integrity (exZstFile.set 20 9) = verify_zstd_integrity exZstFile :=
  zstd_integrity_header_only.1 exZstFile 20 9 (by norm_num)

/-! ### C6 — window-log fidelity -/

/-- C6 counterexample: compressing a 1000-byte input at level 19 with
long mode disabled (`--no-long`) produces an artifact whose frame header
carries the codec's default window log 23, not the size table's choice of
20 for that input size. -/
theorem no_long_mode_window_log_mismatch :
    get_zstd_window_log exNoLongArtifact = 23 ∧
    _calculate_optimal_window_log true false exSmallTar.length = 20 := by
  constructor
  · have h0 : exNoLongArtifact = zstdFrameHeader 23 ++ exSmallTar := by
      unfold exNoLongArtifact compress_with_zstd zstdDefaultWindowLog
      rw [if_neg]
      simp
    refine get_zstd_window_log_of_parse _ 23 ?_
    rw [h0]
    exact parse_forced_header 23 exSmallTar (by norm_num)
  · decide

/-- C6 (amended): for every artifact the pipeline produces with long mode
enabled and level ≥ 10 — the branch that forces a window log on the codec
— the window log parsed back from the frame header equals the size table's
choice for that input size; and the window log decompression uses is the
value read back from the frame header, never one recomputed from the
compressed file's size. -/
theorem window_log_fidelity_long_mode (is64 isWin : Bool) (tarBytes : List Nat)
    (level : Nat) (hlevel : 10 ≤ level) :
    get_zstd_window_log (compress_with_zstd is64 isWin tarBytes level true) =
      _calculate_optimal_window_log is64 isWin tarBytes.length ∧
    ∀ file : List Nat, decompress_window_log_used file = get_zstd_window_log file := by
  refine ⟨?_, fun _ => rfl⟩
  have hw := table_window_log_ge_10 is64 isWin tarBytes.length
  have h0 : compress_with_zstd is64 isWin tarBytes level true =
      zstdFrameHeader (_calculate_optimal_window_log is64 isWin tarBytes.length)
        ++ tarBytes := by
    unfold compress_with_zstd
    rw [if_pos ⟨rfl, hlevel⟩]
  refine get_zstd_window_log_of_parse _ _ ?_
  rw [h0]
  exact parse_forced_header _ tarBytes hw

/-- C6 witness: the fidelity statement at the pipeline defaults (64-bit
Linux, level 19, long mode) on the 1000-byte input, where the table picks
window log 20. -/
theorem window_log_fidelity_long_mode_witness :
    (10 : Nat) ≤ 19 ∧
    get_zstd_window_log exZstFile =
      _calculate_optimal_window_log true false exSmallTar.length :=
  ⟨by norm_num,
    (window_log_fidelity_long_mode true false exSmallTar 19 (by norm_num)).1⟩

/-! ### Helper lemmas: the string order used by the sorts -/

theorem charListLe_total : ∀ a b : List Char,
    charListLe a b = true ∨ charListLe b a = true := by
  intro a
  induction a with
  | nil => intro b; exact Or.inl rfl
  | cons x xs ih =>
    intro b
    cases b with
    | nil => exact Or.inr rfl
    | cons y ys =>
      rcases lt_trichotomy x y with h | h | h
      · exact Or.inl (by simp [charListLe, h])
      · subst h
        rcases ih ys with h2 | h2
        · exact Or.inl (by simp [charListLe, lt_irrefl, h2])
        · exact Or.inr (by simp [charListLe, lt_irrefl, h2])
      · exact Or.inr (by simp [charListLe, h])

theorem charListLe_trans : ∀ a b c : List Char,
    charListLe a b = true → charListLe b c = true → charListLe a c = true := by
  intro a
  induction a with
  | nil => intro b c _ _; rfl
  | cons x xs ih =>
    intro b c hab hbc
    cases b with
    | nil => simp [charListLe] at hab
    | cons y ys =>
      cases c with
      | nil => simp [charListLe] at hbc
      | cons z zs =>
        rw [charListLe] at hab hbc ⊢
        rcases lt_trichotomy x y with hxy | hxy | hxy
        · rcases lt_trichotomy y z with hyz | hyz | hyz
          · simp [lt_trans hxy hyz]
          · subst hyz; simp [hxy]
          · rw [if_neg (lt_asymm hyz), if_pos hyz] at hbc; exact absurd hbc (by simp)
        · subst hxy
          rcases lt_trichotomy x z with hyz | hyz | hyz
          · simp [hyz]
          · subst hyz
            simp only [lt_irrefl, if_false] at hab hbc ⊢
            exact ih ys zs hab hbc
          · rw [if_neg (lt_asymm hyz), if_pos hyz] at hbc; exact absurd hbc (by simp)
        · rw [if_neg (lt_asymm hxy), if_pos hxy] at hab; exact absurd hab (by simp)

theorem charListLe_antisymm : ∀ a b : List Char,
    charListLe a b = true → charListLe b a = true → a = b := by
  intro a
  induction a with
  | nil =>
    intro b _ hba
    cases b with
    | nil => rfl
    | cons y ys => simp [charListLe] at hba
  | cons x xs ih =>
    intro b hab hba
    cases b with
    | nil => simp [charListLe] at hab
    | cons y ys =>
      rw [charListLe] at hab hba
      rcases lt_trichotomy x y with hxy | hxy | hxy
      · rw [if_neg (lt_asymm hxy), if_pos hxy] at hba; exact absurd hba (by simp)
      · subst hxy
        simp only [lt_irrefl, if_false] at hab hba
        rw [ih ys hab hba]
      · rw [if_neg (lt_asymm hxy), if_pos hxy] at hab; exact absurd hab (by simp)

theorem strLe_total (a b : String) : strLe a b = true ∨ strLe b a = true :=
  charListLe_total a.data b.data

theorem strLe_trans {a b c : String} (h1 : strLe a b = true) (h2 : strLe b c = true) :
    strLe a c = true :=
  charListLe_trans a.data b.data c.data h1 h2

theorem strLe_antisymm {a b : String} (h1 : strLe a b = true) (h2 : strLe b a = true) :
    a = b :=
  String.ext (charListLe_antisymm a.data b.data h1 h2)

instance : IsTotal FSTree nmRel := ⟨fun a b => strLe_total a.nm b.nm⟩

instance : IsTrans FSTree nmRel := ⟨fun _ _ _ h1 h2 => strLe_trans h1 h2⟩

instance : IsTotal (List String × FSTree) entryRel :=
  ⟨fun a b => strLe_total (pathStr a.1) (pathStr b.1)⟩

instance : IsTrans (List String × FSTree) entryRel :=
  ⟨fun _ _ _ h1 h2 => strLe_trans h1 h2⟩

instance : IsTotal (List String × Bool × List Nat) entryRelS :=
  ⟨fun a b => strLe_total (pathStr a.1) (pathStr b.1)⟩

instance : IsTrans (List String × Bool × List Nat) entryRelS :=
  ⟨fun _ _ _ h1 h2 => strLe_trans h1 h2⟩

/-- Two sorted lists that are permutations of each other coincide, as soon
as one of them is strictly increasing (no back-edges). -/
theorem sorted_perm_eq {α : Type} {r : α → α → Prop} :
    ∀ {l₁ l₂ : List α}, l₁.Perm l₂ → l₁.Pairwise r → l₂.Pairwise r →
      l₁.Pairwise (fun a b => ¬ r b a) → l₁ = l₂ := by
  intro l₁
  induction l₁ with
  | nil =>
    intro l₂ hp _ _ _
    exact (hp.symm.eq_nil).symm
  | cons a t₁ ih =>
    intro l₂ hp hs₁ hs₂ hstrict
    cases l₂ with
    | nil => exact absurd hp.eq_nil (by simp)
    | cons b t₂ =>
      have hab : a = b := by
        rcases List.mem_cons.mp (hp.subset (List.mem_cons_self a t₁)) with h | hat₂
        · exact h
        · rcases List.mem_cons.mp (hp.symm.subset (List.mem_cons_self b t₂)) with h | hbt₁
          · exact h.symm
          · have hr1 : r a b := (List.pairwise_cons.mp hs₁).1 b hbt₁
            have hr2 : r b a := (List.pairwise_cons.mp hs₂).1 a hat₂
            exact absurd hr2 ((List.pairwise_cons.mp hstrict).1 b hbt₁)
      subst hab
      have ht : t₁.Perm t₂ := hp.cons_inv
      rw [ih ht (List.pairwise_cons.mp hs₁).2 (List.pairwise_cons.mp hs₂).2
        (List.pairwise_cons.mp hstrict).2]

/-! ### Helper lemmas: closed recursion equations for the collector and
    the well-formedness predicate -/

/-- `all` over an attached list is `all` over the plain list. -/
theorem attach_all_eq {α : Type} (items : List α) (g : α → Bool) :
    items.attach.all (fun c => g c.1) = items.all g := by
  rw [Bool.eq_iff_iff, List.all_eq_true, List.all_eq_true]
  constructor
  · intro h x hx
    exact h ⟨x, hx⟩ (List.mem_attach items ⟨x, hx⟩)
  · intro h c _
    exact h c.1 c.2

/-- `add_files_recursively` unfolded without the `attach` device. -/
theorem add_files_recursively_eq (pre : List String) (items : List FSTree) :
    add_files_recursively pre items =
      ((List.insertionSort nmRel items).map (fun c =>
        (pre ++ [c.nm], c) ::
          (if c.isDirB then add_files_recursively (pre ++ [c.nm]) c.childrenL
           else []))).flatten := by
  rw [add_files_recursively]
  exact congrArg List.flatten (List.attach_map_val (List.insertionSort nmRel items)
    (fun c => (pre ++ [c.nm], c) ::
      (if c.isDirB then add_files_recursively (pre ++ [c.nm]) c.childrenL
       else [])))

/-- `wfForest` unfolded without the `attach` device. -/
theorem wfForest_eq (items : List FSTree) :
    wfForest items =
      (items.all (fun c => validName c.nm) &&
       decide (List.Nodup (items.map FSTree.nm)) &&
       items.all (fun c => if c.isDirB then wfForest c.childrenL else true)) := by
  rw [wfForest]
  exact congrArg (fun t =>
    (items.all (fun c => validName c.nm) &&
     decide (List.Nodup (items.map FSTree.nm))) && t)
    (attach_all_eq items (fun c => if c.isDirB then wfForest c.childrenL else true))

/-! ### Helper lemmas: well-formedness extraction and entry shapes -/

theorem wfForest_validName {items : List FSTree} (h : wfForest items = true) :
    ∀ c ∈ items, validName c.nm = true := by
  rw [wfForest_eq] at h
  exact List.all_eq_true.mp (Bool.and_eq_true_iff.mp
    (Bool.and_eq_true_iff.mp h).1).1

theorem wfForest_nodup {items : List FSTree} (h : wfForest items = true) :
    (items.map FSTree.nm).Nodup := by
  rw [wfForest_eq] at h
  exact of_decide_eq_true (Bool.and_eq_true_iff.mp
    (Bool.and_eq_true_iff.mp h).1).2

theorem wfForest_children {items : List FSTree} (h : wfForest items = true) :
    ∀ c ∈ items, c.isDirB = true → wfForest c.childrenL = true := by
  rw [wfForest_eq] at h
  intro c hc hd
  have := List.all_eq_true.mp (Bool.and_eq_true_iff.mp h).2 c hc
  rw [if_pos hd] at this
  exact this

/-- Every collected entry's path is the accumulated path extended by some
child's name and a (possibly empty) valid-name suffix. -/
theorem add_files_shape (items : List FSTree) (pre : List String)
    (e : List String × FSTree) (he : e ∈ add_files_recursively pre items)
    (hwf : wfForest items = true) :
    ∃ c, c ∈ items ∧ ∃ suffix : List String,
      e.1 = pre ++ c.nm :: suffix ∧ validName c.nm = true ∧
      ∀ x ∈ suffix, validName x = true := by
  rw [add_files_recursively_eq] at he
  obtain ⟨blk, hblk, heblk⟩ := List.mem_flatten.mp he
  obtain ⟨c, hcs, rfl⟩ := List.mem_map.mp hblk
  have hc : c ∈ items := (List.mem_insertionSort nmRel).mp hcs
  rcases List.mem_cons.mp heblk with rfl | hrec
  · exact ⟨c, hc, [], rfl, wfForest_validName hwf c hc, by simp⟩
  · by_cases hd : c.isDirB = true
    · rw [if_pos hd] at hrec
      have hwfc : wfForest c.childrenL = true := wfForest_children hwf c hc hd
      obtain ⟨c', _, suffix', h1, h2, h3⟩ :=
        add_files_shape c.childrenL (pre ++ [c.nm]) e hrec hwfc
      refine ⟨c, hc, c'.nm :: suffix', by simpa using h1,
        wfForest_validName hwf c hc, ?_⟩
      intro x hx
      rcases List.mem_cons.mp hx with rfl | hx'
      · exact h2
      · exact h3 x hx'
    · rw [if_neg hd] at hrec
      simp at hrec
termination_by sizeOf items
decreasing_by
  have h1 : sizeOf c < sizeOf items := List.sizeOf_lt_of_mem hc
  have h2 : sizeOf c.childrenL ≤ sizeOf c := by
    rcases c with _ | ⟨n, m, gs⟩ <;> simp [FSTree.childrenL] <;> omega
  omega

/-! ### Helper lemmas: injectivity of `str(relative_path)` on valid trees -/

theorem pathStr_cons (n : String) (l : List String) (h : l ≠ []) :
    pathStr (n :: l) = n ++ "/" ++ pathStr l := by
  cases l with
  | nil => exact absurd rfl h
  | cons a t => rfl

theorem validName_spec {s : String} (h : validName s = true) :
    s.data ≠ [] ∧ ∀ c ∈ s.data, c ≠ '/' := by
  unfold validName at h
  obtain ⟨h1, h2⟩ := Bool.and_eq_true_iff.mp h
  refine ⟨by simpa using h1, ?_⟩
  intro c hc
  simpa using List.all_eq_true.mp h2 c hc

theorem str_append_cancel {s t1 t2 : String} (h : s ++ t1 = s ++ t2) : t1 = t2 := by
  have h2 := congrArg String.data h
  rw [String.data_append, String.data_append] at h2
  exact String.ext (List.append_cancel_left h2)

/-- Splitting off the slash-free head of a character list is unambiguous. -/
theorem chars_head_inj (a1 a2 d1 d2 : List Char)
    (h1 : ∀ c ∈ a1, c ≠ '/') (h2 : ∀ c ∈ a2, c ≠ '/')
    (hd1 : d1 = [] ∨ ∃ e, d1 = '/' :: e) (hd2 : d2 = [] ∨ ∃ e, d2 = '/' :: e)
    (heq : a1 ++ d1 = a2 ++ d2) : a1 = a2 ∧ d1 = d2 := by
  have hp : ∀ (a d : List Char), (∀ c ∈ a, c ≠ '/') →
      (d = [] ∨ ∃ e, d = '/' :: e) →
      (a ++ d).takeWhile (fun c => c ≠ '/') = a := by
    intro a d ha hd
    rw [List.takeWhile_append_of_pos (by intro c hc; simpa using ha c hc)]
    rcases hd with rfl | ⟨e, rfl⟩
    · simp
    · simp [List.takeWhile]
  have ha : a1 = a2 := by
    have := congrArg (List.takeWhile (fun c => c ≠ '/')) heq
    rwa [hp a1 d1 h1 hd1, hp a2 d2 h2 hd2] at this
  subst ha
  exact ⟨rfl, List.append_cancel_left heq⟩

/-- Character-list view of `pathStr (n :: s)`: name bytes followed by
nothing or a separator. -/
theorem pathStr_cons_data (n : String) (s : List String) :
    ∃ d, (pathStr (n :: s)).data = n.data ++ d ∧
      (d = [] ∨ ∃ e, d = '/' :: e) := by
  cases s with
  | nil => exact ⟨[], by simp [pathStr], Or.inl rfl⟩
  | cons a t =>
    refine ⟨'/' :: (pathStr (a :: t)).data, ?_, Or.inr ⟨_, rfl⟩⟩
    show ((n ++ "/") ++ pathStr (a :: t)).data = n.data ++ ('/' :: (pathStr (a :: t)).data)
    rw [String.data_append, String.data_append]
    simp [String.data]

/-- Two relative paths sharing their prefix but continuing with distinct
valid names stringify differently. -/
theorem pathStr_ne (pre : List String) (n1 n2 : String) (s1 s2 : List String)
    (hv1 : validName n1 = true) (hv2 : validName n2 = true) (hne : n1 ≠ n2) :
    pathStr (pre ++ n1 :: s1) ≠ pathStr (pre ++ n2 :: s2) := by
  induction pre with
  | nil =>
    intro heq
    simp only [List.nil_append] at heq
    obtain ⟨d1, he1, hd1⟩ := pathStr_cons_data n1 s1
    obtain ⟨d2, he2, hd2⟩ := pathStr_cons_data n2 s2
    have hdata : n1.data ++ d1 = n2.data ++ d2 := by
      rw [← he1, ← he2, heq]
    exact hne (String.ext (chars_head_inj n1.data n2.data d1 d2
      (validName_spec hv1).2 (validName_spec hv2).2 hd1 hd2 hdata).1)
  | cons a pre' ih =>
    intro heq
    rw [List.cons_append, List.cons_append,
        pathStr_cons a (pre' ++ n1 :: s1) (by simp),
        pathStr_cons a (pre' ++ n2 :: s2) (by simp)] at heq
    exact ih (str_append_cancel heq)

/-- Appending a nonempty run of valid names strictly lengthens the path
string. -/
theorem pathStr_append_length :
    ∀ (q r : List String), r ≠ [] → (∀ x ∈ r, validName x = true) →
      (pathStr q).length < (pathStr (q ++ r)).length := by
  have hhead : ∀ (x : String) (t : List String), validName x = true →
      0 < (pathStr (x :: t)).length := by
    intro x t hv
    have hx : 0 < x.length :=
      List.length_pos.mpr (validName_spec hv).1
    cases t with
    | nil => exact hx
    | cons b u =>
      rw [pathStr_cons x (b :: u) (by simp), String.length_append,
          String.length_append]
      omega
  intro q
  induction q with
  | nil =>
    intro r hr hv
    cases r with
    | nil => exact absurd rfl hr
    | cons x t =>
      simpa using hhead x t (hv x (List.mem_cons_self x t))
  | cons a q' ih =>
    intro r hr hv
    have hne : q' ++ r ≠ [] := by
      cases r with
      | nil => exact absurd rfl hr
      | cons x t => simp
    rw [List.cons_append, pathStr_cons a (q' ++ r) hne]
    cases hq' : q' with
    | nil =>
      subst hq'
      simp only [List.nil_append] at hne ⊢
      cases r with
      | nil => exact absurd rfl hr
      | cons x t =>
        rw [String.length_append, String.length_append]
        have := hhead x t (hv x (List.mem_cons_self x t))
        simp only [pathStr]
        omega
    | cons b u =>
      subst hq'
      rw [pathStr_cons a (b :: u) (by simp), String.length_append,
          String.length_append, String.length_append, String.length_append]
      have := ih r hr hv
      omega

/-! ### Helper lemmas: the collected entries carry pairwise-distinct
    path strings -/

/-- Membership in the block the collector emits for one child `c`. -/
theorem block_mem_shape (pre : List String) (c : FSTree)
    (e : List String × FSTree)
    (hwfc : c.isDirB = true → wfForest c.childrenL = true)
    (he : e ∈ ((pre ++ [c.nm], c) ::
      (if c.isDirB then add_files_recursively (pre ++ [c.nm]) c.childrenL
       else []))) :
    ∃ s, e.1 = pre ++ c.nm :: s := by
  rcases List.mem_cons.mp he with rfl | hrec
  · exact ⟨[], rfl⟩
  · by_cases hd : c.isDirB = true
    · rw [if_pos hd] at hrec
      obtain ⟨c', _, suffix', h1, _, _⟩ :=
        add_files_shape c.childrenL (pre ++ [c.nm]) e hrec (hwfc hd)
      exact ⟨c'.nm :: suffix', by simpa using h1⟩
    · rw [if_neg hd] at hrec
      simp at hrec

/-- On a well-formed forest, all collected entries have pairwise distinct
`str(relative_path)` sort keys. -/
theorem add_files_pathStr_pairwise (items : List FSTree) (pre : List String)
    (hwf : wfForest items = true) :
    (add_files_recursively pre items).Pairwise
      (fun e1 e2 => pathStr e1.1 ≠ pathStr e2.1) := by
  rw [add_files_recursively_eq]
  refine (List.pairwise_flatten).mpr ⟨?_, ?_⟩
  · intro blk hblk
    obtain ⟨c, hcs, rfl⟩ := List.mem_map.mp hblk
    have hc : c ∈ items := (List.mem_insertionSort nmRel).mp hcs
    refine List.pairwise_cons.mpr ⟨?_, ?_⟩
    · intro e he
      by_cases hd : c.isDirB = true
      · rw [if_pos hd] at he
        obtain ⟨c', _, suffix', h1, h2, h3⟩ := add_files_shape c.childrenL
          (pre ++ [c.nm]) e he (wfForest_children hwf c hc hd)
        intro heq
        rw [h1] at heq
        have hlen := pathStr_append_length (pre ++ [c.nm]) (c'.nm :: suffix')
          (by simp) (by
            intro x hx
            rcases List.mem_cons.mp hx with rfl | hx'
            · exact h2
            · exact h3 x hx')
        have heq' : pathStr (pre ++ [c.nm]) =
            pathStr (pre ++ [c.nm] ++ c'.nm :: suffix') := heq
        rw [heq'] at hlen
        exact Nat.lt_irrefl _ hlen
      · rw [if_neg hd] at he
        simp at he
    · by_cases hd : c.isDirB = true
      · rw [if_pos hd]
        exact add_files_pathStr_pairwise c.childrenL (pre ++ [c.nm])
          (wfForest_children hwf c hc hd)
      · rw [if_neg hd]
        exact List.Pairwise.nil
  · rw [List.pairwise_map]
    have hnames : (List.insertionSort nmRel items).Pairwise
        (fun c1 c2 => c1.nm ≠ c2.nm) := by
      have h0 : items.Pairwise (fun c1 c2 => c1.nm ≠ c2.nm) :=
        (List.pairwise_map).mp (wfForest_nodup hwf)
      exact ((List.perm_insertionSort nmRel items).pairwise_iff
        (fun h => h.symm)).mpr h0
    have hmemPw : (List.insertionSort nmRel items).Pairwise
        (fun c1 c2 => c1 ∈ items ∧ c2 ∈ items) :=
      List.pairwise_of_forall_mem_list (fun a ha b hb =>
        ⟨(List.mem_insertionSort nmRel).mp ha, (List.mem_insertionSort nmRel).mp hb⟩)
    refine (hmemPw.and hnames).imp ?_
    rintro c1 c2 ⟨⟨hc1, hc2⟩, hne⟩ x hx y hy
    obtain ⟨s1, hs1⟩ := block_mem_shape pre c1 x
      (fun hd => wfForest_children hwf c1 hc1 hd) hx
    obtain ⟨s2, hs2⟩ := block_mem_shape pre c2 y
      (fun hd => wfForest_children hwf c2 hc2 hd) hy
    rw [hs1, hs2]
    exact pathStr_ne pre c1.nm c2.nm s1 s2 (wfForest_validName hwf c1 hc1)
      (wfForest_validName hwf c2 hc2) hne
termination_by sizeOf items
decreasing_by
  have h1 : sizeOf c < sizeOf items := List.sizeOf_lt_of_mem hc
  have h2 : sizeOf c.childrenL ≤ sizeOf c := by
    rcases c with _ | ⟨n, m, gs⟩ <;> simp [FSTree.childrenL] <;> omega
  omega

/-! ### Helper lemmas: sorting commutes with erasing the metadata -/

theorem orderedInsert_strip (a : List String × FSTree) :
    ∀ l : List (List String × FSTree),
      (List.orderedInsert entryRel a l).map stripEntry =
        List.orderedInsert entryRelS (stripEntry a) (l.map stripEntry) := by
  intro l
  induction l with
  | nil => rfl
  | cons b t ih =>
    by_cases h : entryRel a b
    · have h' : entryRelS (stripEntry a) (stripEntry b) := h
      rw [List.orderedInsert, if_pos h, List.map_cons, List.map_cons,
          List.orderedInsert, if_pos h']
    · have h' : ¬ entryRelS (stripEntry a) (stripEntry b) := h
      rw [List.orderedInsert, if_neg h, List.map_cons, List.map_cons,
          List.orderedInsert, if_neg h', ih]

theorem insertionSort_strip :
    ∀ l : List (List String × FSTree),
      (List.insertionSort entryRel l).map stripEntry =
        List.insertionSort entryRelS (l.map stripEntry) := by
  intro l
  induction l with
  | nil => rfl
  | cons a t ih =>
    rw [List.insertionSort, List.map_cons, List.insertionSort,
        orderedInsert_strip, ih]

theorem setDet_gettarinfo_eq (e : List String × FSTree) :
    setDeterministic (gettarinfo (pathStr e.1) e.2) = mkDetEntry (stripEntry e) := rfl

/-- The directory output of `create_deterministic_tar` as a function of
the metadata-stripped entry multiset. -/
theorem create_deterministic_tar_dir (n : String) (m : FileMeta)
    (cs : List FSTree) :
    create_deterministic_tar (FSTree.dir n m cs) =
      (List.insertionSort entryRelS
        ((add_files_recursively [] cs).map stripEntry)).map mkDetEntry := by
  show (_get_sorted_file_list cs).map
      (fun e => setDeterministic (gettarinfo (pathStr e.1) e.2)) = _
  unfold _get_sorted_file_list
  rw [← insertionSort_strip, List.map_map]
  have hfun : ((fun e : List String × FSTree =>
      setDeterministic (gettarinfo (pathStr e.1) e.2))) =
      (mkDetEntry ∘ stripEntry) := funext (fun e => setDet_gettarinfo_eq e)
  rw [hfun, ← List.map_map]

/-- Collector evaluation on a one-child directory. -/
theorem add_files_singleton (pre : List String) (c : FSTree) :
    add_files_recursively pre [c] =
      (pre ++ [c.nm], c) ::
        (if c.isDirB then add_files_recursively (pre ++ [c.nm]) c.childrenL
         else []) := by
  rw [add_files_recursively_eq]
  have hs : List.insertionSort nmRel [c] = [c] := rfl
  rw [hs]
  simp only [List.map_cons, List.map_nil, List.flatten_cons, List.flatten_nil,
    List.append_nil]

/-- Collector evaluation on a two-child directory whose children are
already in name order. -/
theorem add_files_pair (pre : List String) (c1 c2 : FSTree)
    (hle : nmRel c1 c2) :
    add_files_recursively pre [c1, c2] =
      ((pre ++ [c1.nm], c1) ::
        (if c1.isDirB then add_files_recursively (pre ++ [c1.nm]) c1.childrenL
         else [])) ++
      ((pre ++ [c2.nm], c2) ::
        (if c2.isDirB then add_files_recursively (pre ++ [c2.nm]) c2.childrenL
         else [])) := by
  rw [add_files_recursively_eq]
  have hs : List.insertionSort nmRel [c1, c2] = [c1, c2] := by
    show List.orderedInsert nmRel c1 [c2] = [c1, c2]
    rw [List.orderedInsert, if_pos hle]
  rw [hs]
  simp only [List.map_cons, List.map_nil, List.flatten_cons, List.flatten_nil,
    List.append_nil]

/-- Collector evaluation on a two-child directory whose children arrive in
reverse name order: the name sort swaps them first. -/
theorem add_files_pair_swap (pre : List String) (c1 c2 : FSTree)
    (hgt : ¬ nmRel c1 c2) :
    add_files_recursively pre [c1, c2] =
      ((pre ++ [c2.nm], c2) ::
        (if c2.isDirB then add_files_recursively (pre ++ [c2.nm]) c2.childrenL
         else [])) ++
      ((pre ++ [c1.nm], c1) ::
        (if c1.isDirB then add_files_recursively (pre ++ [c1.nm]) c1.childrenL
         else [])) := by
  rw [add_files_recursively_eq]
  have hs : List.insertionSort nmRel [c1, c2] = [c2, c1] := by
    show List.orderedInsert nmRel c1 [c2] = [c2, c1]
    rw [List.orderedInsert, if_neg hgt]
    rfl
  rw [hs]
  simp only [List.map_cons, List.map_nil, List.flatten_cons, List.flatten_nil,
    List.append_nil]

/-! ### C1 — deterministic tar serialization -/

/-- C1 counterexample: archiving a directory `a` whose child directory is
also named `a` produces entries with paths `a` and `a/b` — the source
root's own name does appear as a path component, because a child may
coincidentally bear it.  (What holds is that entries are stored relative
to the root, so the root's name is never *prefixed*: see the amended
theorem, whose equality does not depend on the root's name.) -/
theorem root_name_component_counterexample :
    (create_deterministic_tar exRootDup).map TarEntry.path = ["a", "a/b"] ∧
    exRootDup.nm = "a" ∧
    "a" ∈ pathParts "a/b" := by
  refine ⟨?_, rfl, by decide⟩
  have hInner : add_files_recursively ["a"] [FSTree.file "b" [1] exMetaA] =
      [(["a", "b"], FSTree.file "b" [1] exMetaA)] := by
    rw [add_files_singleton]
    rfl
  have hOuter : add_files_recursively []
      [FSTree.dir "a" exMetaA [FSTree.file "b" [1] exMetaA]] =
      [(["a"], FSTree.dir "a" exMetaA [FSTree.file "b" [1] exMetaA]),
       (["a", "b"], FSTree.file "b" [1] exMetaA)] := by
    rw [add_files_singleton]
    show (["a"], FSTree.dir "a" exMetaA [FSTree.file "b" [1] exMetaA]) ::
        add_files_recursively ["a"] [FSTree.file "b" [1] exMetaA] = _
    rw [hInner]
  show (create_deterministic_tar (FSTree.dir "a" exMetaA
      [FSTree.dir "a" exMetaA [FSTree.file "b" [1] exMetaA]])).map
      TarEntry.path = ["a", "a/b"]
  rw [create_deterministic_tar_dir, hOuter]
  decide

/-- C1 (amended): `create_deterministic_tar`, on well-formed directory
trees (distinct, nonempty, separator-free names at every level), is a
function of the set of (relative path, kind, file bytes) of the tree's
entries alone: two trees with the same collected content — regardless of
traversal order (children order), owning uid/gid, timestamps, or the
*root directory's own name* — produce identical tar streams.  Entries
appear in strictly increasing lexicographic order of their relative path
string, every entry's uid and gid are 0, its owner and group names are
`"root"`, and its mtime is 0. -/
theorem deterministic_tar_spec (n1 n2 : String) (m1 m2 : FileMeta)
    (cs1 cs2 : List FSTree)
    (h1 : wfForest cs1 = true) (h2 : wfForest cs2 = true)
    (hsame : ((add_files_recursively [] cs1).map stripEntry).Perm
               ((add_files_recursively [] cs2).map stripEntry)) :
    create_deterministic_tar (FSTree.dir n1 m1 cs1) =
      create_deterministic_tar (FSTree.dir n2 m2 cs2) ∧
    (create_deterministic_tar (FSTree.dir n1 m1 cs1)).Pairwise
      (fun a b => strLe a.path b.path = true ∧ a.path ≠ b.path) ∧
    (∀ e ∈ create_deterministic_tar (FSTree.dir n1 m1 cs1),
       e.uid = 0 ∧ e.gid = 0 ∧ e.uname = "root" ∧ e.gname = "root" ∧
       e.mtime = 0) := by
  have hdist : ∀ (cs : List FSTree), wfForest cs = true →
      ((add_files_recursively [] cs).map stripEntry).Pairwise
        (fun p1 p2 => pathStr p1.1 ≠ pathStr p2.1) := by
    intro cs hwf
    exact (List.pairwise_map).mpr
      ((add_files_pathStr_pairwise cs [] hwf).imp (fun h => h))
  have hdistSorted : (List.insertionSort entryRelS
      ((add_files_recursively [] cs1).map stripEntry)).Pairwise
      (fun p1 p2 => pathStr p1.1 ≠ pathStr p2.1) :=
    ((List.perm_insertionSort entryRelS _).pairwise_iff
      (fun h => fun heq => h heq.symm)).mpr (hdist cs1 h1)
  have hsorted1 := List.sorted_insertionSort entryRelS
    ((add_files_recursively [] cs1).map stripEntry)
  have hsorted2 := List.sorted_insertionSort entryRelS
    ((add_files_recursively [] cs2).map stripEntry)
  have hsortEq : List.insertionSort entryRelS
      ((add_files_recursively [] cs1).map stripEntry) =
      List.insertionSort entryRelS
      ((add_files_recursively [] cs2).map stripEntry) := by
    refine sorted_perm_eq ?_ hsorted1 hsorted2 ?_
    · exact (List.perm_insertionSort entryRelS _).trans
        (hsame.trans (List.perm_insertionSort entryRelS _).symm)
    · refine (hsorted1.and hdistSorted).imp ?_
      rintro a b ⟨hle, hne⟩ hba
      exact hne (strLe_antisymm hle hba)
  refine ⟨?_, ?_, ?_⟩
  · rw [create_deterministic_tar_dir n1 m1 cs1,
        create_deterministic_tar_dir n2 m2 cs2, hsortEq]
  · rw [create_deterministic_tar_dir n1 m1 cs1]
    refine (List.pairwise_map).mpr ?_
    refine (hsorted1.and hdistSorted).imp ?_
    rintro a b ⟨hle, hne⟩
    exact ⟨hle, hne⟩
  · rw [create_deterministic_tar_dir n1 m1 cs1]
    intro e he
    obtain ⟨p, _, rfl⟩ := List.mem_map.mp he
    exact ⟨rfl, rfl, rfl, rfl, rfl⟩

/-- C1 witness: the two concrete traversals above satisfy the
well-formedness and same-content hypotheses, and the theorem yields
byte-identical streams for differently named roots. -/
theorem deterministic_tar_spec_witness :
    wfForest wCs1 = true ∧ wfForest wCs2 = true ∧
    ((add_files_recursively [] wCs1).map stripEntry).Perm
      ((add_files_recursively [] wCs2).map stripEntry) ∧
    create_deterministic_tar (FSTree.dir "photos2021" exMetaA wCs1) =
      create_deterministic_tar (FSTree.dir "backup" exMetaB wCs2) := by
  have hleafA : wfForest [FSTree.file "c" [3] exMetaA] = true := by
    rw [wfForest_eq]
    rfl
  have hleafB : wfForest [FSTree.file "c" [3] exMetaB] = true := by
    rw [wfForest_eq]
    rfl
  have hw1 : wfForest wCs1 = true := by
    rw [wfForest_eq]
    have hC : (wCs1.all fun c =>
        if c.isDirB then wfForest c.childrenL else true) =
        (true && (wfForest [FSTree.file "c" [3] exMetaA] && true)) := rfl
    rw [hC, hleafA]
    rfl
  have hw2 : wfForest wCs2 = true := by
    rw [wfForest_eq]
    have hC : (wCs2.all fun c =>
        if c.isDirB then wfForest c.childrenL else true) =
        (wfForest [FSTree.file "c" [3] exMetaB] && (true && true)) := rfl
    rw [hC, hleafB]
    rfl
  have hInnerA : add_files_recursively ["sub"] [FSTree.file "c" [3] exMetaA] =
      [(["sub", "c"], FSTree.file "c" [3] exMetaA)] := by
    rw [add_files_singleton]
    rfl
  have hInnerB : add_files_recursively ["sub"] [FSTree.file "c" [3] exMetaB] =
      [(["sub", "c"], FSTree.file "c" [3] exMetaB)] := by
    rw [add_files_singleton]
    rfl
  have hr1 : add_files_recursively [] wCs1 =
      [(["b.txt"], FSTree.file "b.txt" [10, 20] exMetaA),
       (["sub"], FSTree.dir "sub" exMetaA [FSTree.file "c" [3] exMetaA]),
       (["sub", "c"], FSTree.file "c" [3] exMetaA)] := by
    rw [show wCs1 = [FSTree.file "b.txt" [10, 20] exMetaA,
      FSTree.dir "sub" exMetaA [FSTree.file "c" [3] exMetaA]] from rfl]
    rw [add_files_pair [] _ _ (by decide)]
    show (["b.txt"], FSTree.file "b.txt" [10, 20] exMetaA) ::
        ((["sub"], FSTree.dir "sub" exMetaA [FSTree.file "c" [3] exMetaA]) ::
          add_files_recursively ["sub"] [FSTree.file "c" [3] exMetaA]) = _
    rw [hInnerA]
  have hr2 : add_files_recursively [] wCs2 =
      [(["b.txt"], FSTree.file "b.txt" [10, 20] exMetaB),
       (["sub"], FSTree.dir "sub" exMetaB [FSTree.file "c" [3] exMetaB]),
       (["sub", "c"], FSTree.file "c" [3] exMetaB)] := by
    rw [show wCs2 = [FSTree.dir "sub" exMetaB [FSTree.file "c" [3] exMetaB],
      FSTree.file "b.txt" [10, 20] exMetaB] from rfl]
    rw [add_files_pair_swap [] _ _ (by decide)]
    show (["b.txt"], FSTree.file "b.txt" [10, 20] exMetaB) ::
        ((["sub"], FSTree.dir "sub" exMetaB [FSTree.file "c" [3] exMetaB]) ::
          add_files_recursively ["sub"] [FSTree.file "c" [3] exMetaB]) = _
    rw [hInnerB]
  have hperm : ((add_files_recursively [] wCs1).map stripEntry).Perm
      ((add_files_recursively [] wCs2).map stripEntry) := by
    rw [hr1, hr2]
    decide
  exact ⟨hw1, hw2, hperm,
    (deterministic_tar_spec "photos2021" "backup" exMetaA exMetaB wCs1 wCs2
      hw1 hw2 hperm).1⟩

end ColdStore
